import Mathlib

/-!
# Record store (`main.go`): a shallow embedding and its verified properties

The program keeps a collection of records `Item {Id, Email, Age}` in one JSON
file and offers four operations (`list`, `add`, `remove`, `findById`).

* Go strings and byte slices are Lean `String`s (sequences of Unicode scalar
  values, i.e. valid UTF-8 text).
* Go's `int` is `Int`; the 64-bit range is enforced where the program can
  observe it (decoding a JSON number into `Age`).
* A Go slice value is either the `nil` slice or an allocated sequence; the
  difference is observable through `json.Marshal` (`null` against `[]`).
* A method with a pointer receiver returns the new value of the receiver
  together with its results.
-/

namespace RecordStore

/-! ## Data model -/

/-- The record type `Item` of `main.go`. -/
structure Item where
  Id : String
  Email : String
  Age : Int
  deriving DecidableEq, Repr

/-- The zero value `Item{}`. -/
def Item.zero : Item := { Id := "", Email := "", Age := 0 }

/-- The type `fileDb []Item`: the nil slice, or a slice holding `items`. -/
inductive fileDb where
  | nil : fileDb
  | slice (items : List Item) : fileDb
  deriving DecidableEq, Repr

/-- The elements of the slice, in order (`nil` has none). -/
def fileDb.records : fileDb → List Item
  | .nil => []
  | .slice items => items

/-- Go `error` values the program can return. -/
inductive GoError where
  /-- An error built by `errors.New` or `fmt.Errorf`, with its message. -/
  | text (msg : String) : GoError
  /-- The `*json.SyntaxError` of `json.Unmarshal`. -/
  | syntaxError : GoError
  /-- The `*json.UnmarshalTypeError` of `json.Unmarshal`. -/
  | unmarshalTypeError : GoError
  /-- The `*fs.PathError` of reading a file that does not exist. -/
  | notExist (path : String) : GoError
  deriving DecidableEq, Repr

/-! ## Message templates (`var (...)` block) -/

def errOper : GoError := .text "-operation flag has to be specified"
def errFileName : GoError := .text "-fileName flag has to be specified"
def errItem : GoError := .text "-item flag has to be specified"
def errId : GoError := .text "-id flag has to be specified"

/-- The template `fmt.Sprintf(msgErrOperNotFound, v)`. -/
def msgErrOperNotFound (v : String) : String := "Operation " ++ v ++ " not allowed!"

/-- The template `fmt.Sprintf(msgErrItemExists, v)`. -/
def msgErrItemExists (v : String) : String := "Item with id " ++ v ++ " already exists"

/-- The template `fmt.Sprintf(msgErrIdNotFound, v)`. -/
def msgErrIdNotFound (v : String) : String := "Item with id " ++ v ++ " not found"

/-! ## In-memory operations on the collection -/

/-- The loop of `findById`, scanning `items` whose first element has index `i`. -/
def findByIdFrom (id : String) : List Item → Nat → Item × Int
  | [], _ => (Item.zero, -1)
  | x :: xs, i => if x.Id = id then (x, (i : Int)) else findByIdFrom id xs (i + 1)

/-- The method `func (db fileDb) findById(id string) (Item, int)`. -/
def fileDb.findById (db : fileDb) (id : String) : Item × Int :=
  findByIdFrom id db.records 0

/-- The method `func (db *fileDb) add(itm Item) (string, error)`; the first
component is the receiver after the call. -/
def fileDb.add (db : fileDb) (itm : Item) : fileDb × String × Option GoError :=
  if (db.findById itm.Id).2 ≥ 0 then
    (db, msgErrItemExists itm.Id, none)
  else
    (.slice (db.records ++ [itm]), "", none)

/-- The method `func (db *fileDb) del(id string) (string, error)`; the first
component is the receiver after the call. -/
def fileDb.del (db : fileDb) (id : String) : fileDb × String × Option GoError :=
  let idx := (db.findById id).2
  if idx < 0 then
    (db, msgErrIdNotFound id, none)
  else
    let tmp := db.records
    (.slice (tmp.take idx.toNat ++ tmp.drop (idx.toNat + 1)), "", none)

/-! ## The JSON codec of `encoding/json`, as used through `json.Unmarshal`
and `json.Marshal` on the types `Item` and `fileDb`

`json.Unmarshal` first checks that the whole input is one well-formed JSON
value (`checkValid`), and only then stores it into the target. The model
follows the two phases: `parse` builds the syntax tree of a well-formed input,
`decodeItem` / `decodeDb` store a tree into the Go value. -/

namespace Json

/-- The syntax tree of a JSON text. A number keeps its literal, which is what
the decoder hands to `strconv.ParseInt`. -/
inductive Value where
  | null : Value
  | bool (b : Bool) : Value
  | number (lit : List Char) : Value
  | string (s : List Char) : Value
  | array (elems : List Value) : Value
  | object (members : List (List Char × Value)) : Value
  deriving Repr

/-- The scanner's `isSpace`. -/
def isSpace (c : Char) : Bool := c = ' ' || c = '\t' || c = '\r' || c = '\n'

def skipSpace : List Char → List Char
  | [] => []
  | c :: cs => if isSpace c then skipSpace cs else c :: cs

def isDigit (c : Char) : Bool := decide ('0' ≤ c) && decide (c ≤ '9')

/-- The value of a hexadecimal digit (either case), as in `getu4`. -/
def hexVal (c : Char) : Option Nat :=
  if '0' ≤ c ∧ c ≤ '9' then some (c.toNat - 48)
  else if 'a' ≤ c ∧ c ≤ 'f' then some (c.toNat - 87)
  else if 'A' ≤ c ∧ c ≤ 'F' then some (c.toNat - 55)
  else none

/-- The number written by four hexadecimal digits. -/
def hex4 (a b c d : Char) : Option Nat :=
  match hexVal a, hexVal b, hexVal c, hexVal d with
  | some x, some y, some z, some w => some (((x * 16 + y) * 16 + z) * 16 + w)
  | _, _, _, _ => none

/-- The character of a two-character escape `\c`, as in `unquoteBytes`. -/
def simpleEscape (c : Char) : Option Char :=
  if c = '"' then some '"'
  else if c = '\\' then some '\\'
  else if c = '/' then some '/'
  else if c = 'b' then some (Char.ofNat 8)
  else if c = 'f' then some (Char.ofNat 12)
  else if c = 'n' then some '\n'
  else if c = 'r' then some '\r'
  else if c = 't' then some '\t'
  else none

/-- The predicate `utf16.IsSurrogate`. -/
def isSurrogate (r : Nat) : Bool := decide (0xD800 ≤ r) && decide (r < 0xE000)

/-- The function `utf16.DecodeRune`: the code point of a surrogate pair, or
`U+FFFD` when the two halves are not a high and a low surrogate. -/
def decodeSurrogates (r1 r2 : Nat) : Nat :=
  if 0xD800 ≤ r1 ∧ r1 < 0xDC00 ∧ 0xDC00 ≤ r2 ∧ r2 < 0xE000 then
    (r1 - 0xD800) * 1024 + (r2 - 0xDC00) + 0x10000
  else 0xFFFD

/-- The function `getu4`: the number written by an escape `\uXXXX` at the head
of the input, `none` (Go: `-1`) when the input does not start with one. -/
def getu4 : List Char → Option Nat
  | b :: u :: h1 :: h2 :: h3 :: h4 :: _ =>
    if b = '\\' ∧ u = 'u' then hex4 h1 h2 h3 h4 else none
  | _ => none

/-- The loop of `unquoteBytes` on the body of a string literal (the input after
the opening quote): the characters the literal denotes and the input left
after the closing quote. Control characters below `U+0020` and unknown escapes
are syntax errors; a `\u` escape that is a surrogate is joined with a
following low surrogate escape, and is `U+FFFD` otherwise. Every round
consumes at least one character, so `fuel` bounds the number of rounds. -/
def unquoteLoop : Nat → List Char → Option (List Char × List Char)
  | 0, _ => none
  | fuel + 1, cs =>
    match cs with
    | [] => none
    | c :: rest =>
      if c = '"' then some ([], rest)
      else if c = '\\' then
        match rest with
        | [] => none
        | e :: rest1 =>
          if e = 'u' then
            match getu4 cs with
            | none => none
            | some rr =>
              if isSurrogate rr then
                match getu4 (cs.drop 6) with
                | some rr1 =>
                  if decodeSurrogates rr rr1 ≠ 0xFFFD then
                    (unquoteLoop fuel (cs.drop 12)).map fun p =>
                      (Char.ofNat (decodeSurrogates rr rr1) :: p.1, p.2)
                  else (unquoteLoop fuel (cs.drop 6)).map fun p => (Char.ofNat 0xFFFD :: p.1, p.2)
                | none => (unquoteLoop fuel (cs.drop 6)).map fun p => (Char.ofNat 0xFFFD :: p.1, p.2)
              else (unquoteLoop fuel (cs.drop 6)).map fun p => (Char.ofNat rr :: p.1, p.2)
          else
            match simpleEscape e with
            | none => none
            | some x => (unquoteLoop fuel rest1).map fun p => (x :: p.1, p.2)
      else if c.toNat < 32 then none
      else (unquoteLoop fuel rest).map fun p => (c :: p.1, p.2)

/-- A string literal read after its opening quote. -/
def unquote (cs : List Char) : Option (List Char × List Char) :=
  unquoteLoop cs.length cs

/-- The longest run of decimal digits at the head of the input. -/
def takeDigits : List Char → List Char × List Char
  | [] => ([], [])
  | c :: cs =>
    if isDigit c then ((c :: (takeDigits cs).1), (takeDigits cs).2) else ([], c :: cs)

/-- The integer part of a number: `0`, or a non-zero digit and more digits. -/
def scanInt : List Char → Option (List Char × List Char)
  | [] => none
  | c :: cs =>
    if c = '0' then some ([c], cs)
    else if isDigit c then some (c :: (takeDigits cs).1, (takeDigits cs).2)
    else none

/-- The optional fraction: a dot and at least one digit. -/
def scanFrac : List Char → Option (List Char × List Char)
  | [] => some ([], [])
  | c :: cs =>
    if c = '.' then
      if (takeDigits cs).1 = [] then none
      else some (c :: (takeDigits cs).1, (takeDigits cs).2)
    else some ([], c :: cs)

/-- The optional exponent: `e` or `E`, an optional sign, at least one digit. -/
def scanExp : List Char → Option (List Char × List Char)
  | [] => some ([], [])
  | c :: cs =>
    if c = 'e' ∨ c = 'E' then
      match cs with
      | [] => none
      | s :: cs1 =>
        if s = '+' ∨ s = '-' then
          if (takeDigits cs1).1 = [] then none
          else some (c :: s :: (takeDigits cs1).1, (takeDigits cs1).2)
        else
          if (takeDigits cs).1 = [] then none
          else some (c :: (takeDigits cs).1, (takeDigits cs).2)
    else some ([], c :: cs)

/-- A number literal at the head of the input (the scanner states `stateNeg`,
`state0`, `state1`, `stateDot`, `stateE` and their successors). -/
def scanNumber (cs : List Char) : Option (List Char × List Char) :=
  let sign : List Char × List Char :=
    match cs with
    | [] => ([], [])
    | c :: r => if c = '-' then ([c], r) else ([], c :: r)
  match scanInt sign.2 with
  | none => none
  | some (ip, r1) =>
    match scanFrac r1 with
    | none => none
    | some (fp, r2) =>
      match scanExp r2 with
      | none => none
      | some (ep, r3) => some (sign.1 ++ ip ++ fp ++ ep, r3)

/-- The input after the literal `lit`, when the input starts with it. -/
def expect : List Char → List Char → Option (List Char)
  | [], cs => some cs
  | _ :: _, [] => none
  | l :: ls, c :: cs => if l = c then expect ls cs else none

/-- The limit `maxNestingDepth` of the scanner. -/
def maxNestingDepth : Nat := 10000

mutual
/-- One JSON value at the head of the input, after optional white space.
`depth` is the number of arrays and objects that are open; `fuel` bounds the
number of nested calls. -/
def parseValue : Nat → Nat → List Char → Option (Value × List Char)
  | 0, _, _ => none
  | fuel + 1, depth, cs =>
    match skipSpace cs with
    | [] => none
    | c :: rest =>
      if c = '{' then
        if depth ≥ maxNestingDepth then none
        else
          match skipSpace rest with
          | [] => none
          | c1 :: rest1 =>
            if c1 = '}' then some (.object [], rest1)
            else (parseMembers fuel (depth + 1) (c1 :: rest1)).map fun p => (.object p.1, p.2)
      else if c = '[' then
        if depth ≥ maxNestingDepth then none
        else
          match skipSpace rest with
          | [] => none
          | c1 :: rest1 =>
            if c1 = ']' then some (.array [], rest1)
            else (parseElems fuel (depth + 1) (c1 :: rest1)).map fun p => (.array p.1, p.2)
      else if c = '"' then (unquote rest).map fun p => (.string p.1, p.2)
      else if c = 't' then (expect ['r', 'u', 'e'] rest).map fun r => (.bool true, r)
      else if c = 'f' then (expect ['a', 'l', 's', 'e'] rest).map fun r => (.bool false, r)
      else if c = 'n' then (expect ['u', 'l', 'l'] rest).map fun r => (.null, r)
      else if c = '-' ∨ isDigit c then (scanNumber (c :: rest)).map fun p => (.number p.1, p.2)
      else none
/-- The elements of an array after its opening bracket, up to and including
the closing bracket. -/
def parseElems : Nat → Nat → List Char → Option (List Value × List Char)
  | 0, _, _ => none
  | fuel + 1, depth, cs =>
    match parseValue fuel depth cs with
    | none => none
    | some (v, r) =>
      match skipSpace r with
      | [] => none
      | d :: r1 =>
        if d = ',' then (parseElems fuel depth r1).map fun p => (v :: p.1, p.2)
        else if d = ']' then some ([v], r1)
        else none
/-- The members of an object after its opening brace, up to and including the
closing brace. -/
def parseMembers : Nat → Nat → List Char → Option (List (List Char × Value) × List Char)
  | 0, _, _ => none
  | fuel + 1, depth, cs =>
    match skipSpace cs with
    | [] => none
    | q :: r =>
      if q = '"' then
        match unquote r with
        | none => none
        | some (key, r1) =>
          match skipSpace r1 with
          | [] => none
          | col :: r2 =>
            if col = ':' then
              match parseValue fuel depth r2 with
              | none => none
              | some (v, r3) =>
                match skipSpace r3 with
                | [] => none
                | d :: r4 =>
                  if d = ',' then (parseMembers fuel depth r4).map fun p => ((key, v) :: p.1, p.2)
                  else if d = '}' then some ([(key, v)], r4)
                  else none
            else none
      else none
end

/-- The syntax tree of a text that is exactly one JSON value between optional
white space (`checkValid`); `none` is a `*json.SyntaxError`. Every nested call
of the parser follows at least one consumed character at every second level,
so the fuel `2 * length + 2` is never exhausted. -/
def parse (text : List Char) : Option Value :=
  match parseValue (2 * text.length + 2) 0 text with
  | none => none
  | some (v, rest) => if skipSpace rest = [] then some v else none

/-- The range of Go's 64-bit `int`. -/
def int64 (n : Int) : Prop := -(2 : Int) ^ 63 ≤ n ∧ n < (2 : Int) ^ 63

instance (n : Int) : Decidable (int64 n) := by
  unfold int64; infer_instance

/-- The value of a run of decimal digits. -/
def digitsVal (ds : List Char) : Nat :=
  ds.foldl (fun acc c => acc * 10 + (c.toNat - 48)) 0

/-- The call `strconv.ParseInt(lit, 10, 64)` on a JSON number literal: the
literal must be an optional minus sign and digits only, and the value must fit
a signed 64-bit integer. -/
def parseInt64 (lit : List Char) : Option Int :=
  let sign : Bool × List Char :=
    match lit with
    | [] => (false, [])
    | c :: r => if c = '-' then (true, r) else (false, c :: r)
  if sign.2 ≠ [] ∧ sign.2.all isDigit = true then
    let v : Int := if sign.1 then -(digitsVal sign.2 : Int) else (digitsVal sign.2 : Int)
    if int64 v then some v else none
  else none

/-- ASCII lower case of a character; object keys match the field names `id`,
`email` and `age` up to the case of ASCII letters (none of the three names has
a letter with a non-ASCII case variant). -/
def lower (c : Char) : Char :=
  if 'A' ≤ c ∧ c ≤ 'Z' then Char.ofNat (c.toNat + 32) else c

/-- Storing a JSON value into a field of type `string` that holds `cur`: a
string is stored, `null` changes nothing, every other value is a
`*json.UnmarshalTypeError` (`none`). -/
def storeString (cur : String) : Value → Option String
  | .null => some cur
  | .string s => some (String.mk s)
  | _ => none

/-- Storing a JSON value into a field of type `int` that holds `cur`: a number
that `strconv.ParseInt` accepts is stored, `null` changes nothing, every other
value (a number with a fraction or an exponent, or out of range, among them)
is a `*json.UnmarshalTypeError` (`none`). -/
def storeInt (cur : Int) : Value → Option Int
  | .null => some cur
  | .number lit => parseInt64 lit
  | _ => none

/-- Storing one object member into an `Item`: the key selects the field, a
member whose key names no field is skipped. -/
def setField (it : Item) (key : List Char) (v : Value) : Option Item :=
  if key.map lower = ['i', 'd'] then
    (storeString it.Id v).map fun s => { it with Id := s }
  else if key.map lower = ['e', 'm', 'a', 'i', 'l'] then
    (storeString it.Email v).map fun s => { it with Email := s }
  else if key.map lower = ['a', 'g', 'e'] then
    (storeInt it.Age v).map fun n => { it with Age := n }
  else some it

/-- Storing the members of an object, in the order of the text (a repeated key
overwrites). -/
def setFields (it : Item) : List (List Char × Value) → Option Item
  | [] => some it
  | (k, v) :: ms =>
    match setField it k v with
    | none => none
    | some it1 => setFields it1 ms

/-- Storing one JSON value into the `Item` `it`: an object sets fields, `null`
changes nothing, every other value is a type error. -/
def decodeItem (it : Item) : Value → Option Item
  | .object ms => setFields it ms
  | .null => some it
  | _ => none

/-- Storing the elements of an array into fresh (zero) slice elements. -/
def decodeItems : List Value → Option (List Item)
  | [] => some []
  | v :: vs =>
    match decodeItem Item.zero v with
    | none => none
    | some it => (decodeItems vs).map fun its => it :: its

/-- Storing one JSON value into a `fileDb` that is `nil`: an array gives an
allocated slice (also when it is empty), `null` gives `nil`, every other value
is a type error. -/
def decodeDb : Value → Option fileDb
  | .array vs => (decodeItems vs).map fileDb.slice
  | .null => some fileDb.nil
  | _ => none

/-- The digit characters used by the encoder for `\u00XX`. -/
def hexDigit (n : Nat) : Char := Nat.digitChar n

/-- How `json.Marshal` writes one character of a string (HTML escaping is on):
quote and backslash get a backslash, `\b \f \n \r \t` their short escape (Go
1.22 and later; earlier releases write `\u0008` and `\u000c`, which denote the
same characters), the other control characters and `<`, `>`, `&` the form
`\u00XX`, `U+2028` and `U+2029` the form `\u202X`, anything else itself. -/
def escapeChar (c : Char) : List Char :=
  if c = '"' ∨ c = '\\' then ['\\', c]
  else if c = Char.ofNat 8 then ['\\', 'b']
  else if c = Char.ofNat 12 then ['\\', 'f']
  else if c = '\n' then ['\\', 'n']
  else if c = '\r' then ['\\', 'r']
  else if c = '\t' then ['\\', 't']
  else if c.toNat < 32 ∨ c = '<' ∨ c = '>' ∨ c = '&' then
    ['\\', 'u', '0', '0', hexDigit (c.toNat / 16), hexDigit (c.toNat % 16)]
  else if c.toNat = 0x2028 ∨ c.toNat = 0x2029 then
    ['\\', 'u', '2', '0', '2', hexDigit (c.toNat % 16)]
  else [c]

def escapeChars : List Char → List Char
  | [] => []
  | c :: cs => escapeChar c ++ escapeChars cs

/-- A string as a JSON string literal. -/
def encodeString (s : String) : List Char :=
  '"' :: (escapeChars s.data ++ ['"'])

/-- The decimal digits of `n`, most significant first; `fuel` bounds the
number of digits. -/
def decimal : Nat → Nat → List Char
  | 0, _ => []
  | fuel + 1, n =>
    if n < 10 then [Nat.digitChar n]
    else decimal fuel (n / 10) ++ [Nat.digitChar (n % 10)]

/-- A natural number in decimal (`0` is written `0`). -/
def encodeNat (n : Nat) : List Char := decimal (n + 1) n

/-- An integer in decimal, as `strconv.AppendInt(_, n, 10)`. -/
def encodeInt (n : Int) : List Char :=
  match n with
  | Int.ofNat m => encodeNat m
  | Int.negSucc m => '-' :: encodeNat (m + 1)

/-- An `Item` as a JSON object, fields in declaration order under their tags. -/
def encodeItem (it : Item) : List Char :=
  "\x7b\"id\":".data ++ encodeString it.Id ++ ",\"email\":".data ++ encodeString it.Email
    ++ ",\"age\":".data ++ encodeInt it.Age ++ ['}']

/-- The elements of an array, separated by commas. -/
def encodeItems : List Item → List Char
  | [] => []
  | [it] => encodeItem it
  | it :: its => encodeItem it ++ ',' :: encodeItems its

/-- The syntax tree that `encodeItem` writes. -/
def itemValue (it : Item) : Value :=
  .object [(['i', 'd'], .string it.Id.data), (['e', 'm', 'a', 'i', 'l'], .string it.Email.data),
    (['a', 'g', 'e'], .number (encodeInt it.Age))]

end Json

/-- The call `json.Unmarshal([]byte(text), &itm)` on a zero `itm`. -/
def unmarshalItem (text : String) : Except GoError Item :=
  match Json.parse text.data with
  | none => .error .syntaxError
  | some v =>
    match Json.decodeItem Item.zero v with
    | none => .error .unmarshalTypeError
    | some it => .ok it

/-- The call `json.Unmarshal(content, db)` on a `nil` `*db`. -/
def unmarshalDb (content : String) : Except GoError fileDb :=
  match Json.parse content.data with
  | none => .error .syntaxError
  | some v =>
    match Json.decodeDb v with
    | none => .error .unmarshalTypeError
    | some db => .ok db

/-- The call `json.Marshal(item)`; it cannot fail on an `Item`. -/
def marshalItem (it : Item) : String := String.mk (Json.encodeItem it)

/-- The call `json.Marshal(db)` on a `*fileDb`; it cannot fail. A `nil` slice
is written `null`. -/
def marshalDb : fileDb → String
  | .nil => "null"
  | .slice items => String.mk ('[' :: (Json.encodeItems items ++ [']']))

/-! ## Files, the writer, and the operations of the command line -/

/-- The file system: the content of the file at each path, `none` when no file
is there. Opening, reading and writing succeed whenever the file can exist;
failures of the operating system other than a missing file are outside the
model. -/
abbrev FS := String → Option String

/-- The result of `ioutil.WriteFile(fn, content, filePerm)`: the file holds
exactly `content`. -/
def FS.write (fs : FS) (fn : String) (content : String) : FS :=
  fun p => if p = fn then some content else fs p

/-- The result of `os.OpenFile(fn, os.O_RDWR|os.O_CREATE, filePerm)`: a
missing file is created empty, an existing file is left as it is. -/
def FS.openCreate (fs : FS) (fn : String) : FS :=
  match fs fn with
  | some _ => fs
  | none => fs.write fn ""

/-- What the program acts on: the file system, the bytes written to the
`io.Writer` so far, and the errors printed by `fmt.Println`. -/
structure World where
  files : FS
  out : String
  printed : List GoError

/-- The call `writer.Write([]byte(str))`. -/
def World.write (w : World) (str : String) : World :=
  { w with out := w.out ++ str }

/-- The method `func (db *fileDb) loadDb(fn string) error`, called on a `nil`
`db`: the world after the call, and the error or the loaded collection. -/
def loadDb (w : World) (fn : String) : World × Except GoError fileDb :=
  let w1 : World := { w with files := w.files.openCreate fn }
  match w1.files fn with
  | none => (w1, .error (.notExist fn))
  | some content =>
    if content.length > 0 then
      match unmarshalDb content with
      | .error e => (w1, .error e)
      | .ok db => (w1, .ok db)
    else (w1, .ok .nil)

/-- The method `func (db *fileDb) saveDb(fn string) (err error)`. -/
def saveDb (w : World) (db : fileDb) (fn : String) : World × Option GoError :=
  ({ w with files := w.files.write fn (marshalDb db) }, none)

/-- The function `addItem(fn, item, writer)`. -/
def addItem (w : World) (fn : String) (item : String) : World × Option GoError :=
  if item = "" then (w, some errItem)
  else
    match unmarshalItem item with
    | .error e => (w, some e)
    | .ok itm =>
      match loadDb w fn with
      | (w1, .error e) => (w1, some e)
      | (w1, .ok db) =>
        match db.add itm with
        | (_, _, some e) => (w1, some e)
        | (db1, str, none) => saveDb (w1.write str) db1 fn

/-- The function `removeId(fn, id, writer)`. -/
def removeId (w : World) (fn : String) (id : String) : World × Option GoError :=
  if id = "" then (w, some errId)
  else
    match loadDb w fn with
    | (w1, .error e) => (w1, some e)
    | (w1, .ok db) =>
      match db.del id with
      | (_, _, some e) => (w1, some e)
      | (db1, str, none) => saveDb (w1.write str) db1 fn

/-- The function `findId(fn, id, writer)`; the record is serialised only when
the index returned by `findById` is greater than zero. -/
def findId (w : World) (fn : String) (id : String) : World × Option GoError :=
  if id = "" then (w, some errId)
  else
    match loadDb w fn with
    | (w1, .error e) => (w1, some e)
    | (w1, .ok db) =>
      let found := db.findById id
      let str : String := if found.2 > 0 then marshalItem found.1 else ""
      (w1.write str, none)

/-- The function `isValidOperation`. -/
def isValidOperation (operation : String) : Bool :=
  operation = "add" || operation = "list" || operation = "findById" || operation = "remove"

/-- The type `Arguments map[string]string`: the value under each key, `none`
for a key that is not in the map. -/
abbrev Arguments := String → Option String

/-- The index expression `args[key]`: the zero value for a missing key. -/
def Arguments.get (args : Arguments) (key : String) : String :=
  (args key).getD ""

/-- The map literal `Arguments{k1: v1, ...}` with distinct keys. -/
def Arguments.ofList (kvs : List (String × String)) : Arguments :=
  fun key => kvs.lookup key

/-- The function `Perform(args, writer)`. -/
def Perform (w : World) (args : Arguments) : World × Option GoError :=
  let oper := args.get "operation"
  if oper = "" ∨ (args "operation").isNone then (w, some errOper)
  else if args.get "fileName" = "" then (w, some errFileName)
  else if !isValidOperation oper then (w, some (.text (msgErrOperNotFound oper)))
  else if oper = "list" then
    match w.files (args.get "fileName") with
    | none =>
      ({ w with printed := w.printed ++ [.notExist (args.get "fileName")] },
        some (.notExist (args.get "fileName")))
    | some input => (w.write input, none)
  else if oper = "add" then addItem w (args.get "fileName") (args.get "item")
  else if oper = "remove" then removeId w (args.get "fileName") (args.get "id")
  else if oper = "findById" then findId w (args.get "fileName") (args.get "id")
  else (w, none)

/-- A world with one file, an empty writer and nothing printed. -/
def World.single (fn content : String) : World :=
  ⟨fun p => if p = fn then some content else none, "", []⟩

/-- Equality of results is decidable when it is on both sides. -/
instance exceptDecEq {ε α : Type} [DecidableEq ε] [DecidableEq α] :
    DecidableEq (Except ε α)
  | .ok a, .ok b =>
    if h : a = b then isTrue (by rw [h]) else isFalse (fun h2 => h (by cases h2; rfl))
  | .error a, .error b =>
    if h : a = b then isTrue (by rw [h]) else isFalse (fun h2 => h (by cases h2; rfl))
  | .ok _, .error _ => isFalse (fun h => by cases h)
  | .error _, .ok _ => isFalse (fun h => by cases h)

/-- The invariant of the collection: no two records share an id. -/
def uniqueIds (db : fileDb) : Prop := (db.records.map Item.Id).Nodup

instance (db : fileDb) : Decidable (uniqueIds db) := by
  unfold uniqueIds; infer_instance

/-! ## Lemmas on the linear scan -/

theorem findByIdFrom_absent (id : String) (xs : List Item) (i : Nat)
    (h : ∀ x ∈ xs, x.Id ≠ id) : findByIdFrom id xs i = (Item.zero, -1) := by
  induction xs generalizing i with
  | nil => rfl
  | cons x xs ih =>
    have hx : x.Id ≠ id := h x (List.mem_cons_self _ _)
    simp only [findByIdFrom, if_neg hx]
    exact ih (i + 1) (fun y hy => h y (List.mem_cons_of_mem _ hy))

theorem findByIdFrom_split (id : String) (pre : List Item) (x : Item) (post : List Item)
    (i : Nat) (hpre : ∀ y ∈ pre, y.Id ≠ id) (hx : x.Id = id) :
    findByIdFrom id (pre ++ x :: post) i = (x, ((i + pre.length : Nat) : Int)) := by
  induction pre generalizing i with
  | nil => simp [findByIdFrom, hx]
  | cons y ys ih =>
    have hy : y.Id ≠ id := hpre y (List.mem_cons_self _ _)
    have ih2 := ih (i + 1) (fun z hz => hpre z (List.mem_cons_of_mem _ hz))
    show findByIdFrom id (y :: (ys ++ x :: post)) i = _
    simp only [findByIdFrom, if_neg hy, List.length_cons, ih2]
    congr 2
    omega

/-- Every list holding a record with the id splits at the first such record. -/
theorem exists_first_split (id : String) (xs : List Item) (h : ∃ x ∈ xs, x.Id = id) :
    ∃ pre x post, xs = pre ++ x :: post ∧ x.Id = id ∧ ∀ y ∈ pre, y.Id ≠ id := by
  induction xs with
  | nil => simp at h
  | cons a as ih =>
    by_cases ha : a.Id = id
    · exact ⟨[], a, as, rfl, ha, by simp⟩
    · have h2 : ∃ x ∈ as, x.Id = id := by
        obtain ⟨x, hx, hxid⟩ := h
        rcases List.mem_cons.mp hx with rfl | hx
        · exact absurd hxid ha
        · exact ⟨x, hx, hxid⟩
      obtain ⟨pre, x, post, hsplit, hxid, hpre⟩ := ih h2
      refine ⟨a :: pre, x, post, by simp [hsplit], hxid, ?_⟩
      intro y hy
      rcases List.mem_cons.mp hy with rfl | hy
      · exact ha
      · exact hpre y hy

theorem findById_absent (db : fileDb) (id : String) (h : ∀ x ∈ db.records, x.Id ≠ id) :
    db.findById id = (Item.zero, -1) :=
  findByIdFrom_absent id db.records 0 h

theorem findById_split (db : fileDb) (id : String) (pre : List Item) (x : Item)
    (post : List Item) (hdb : db.records = pre ++ x :: post)
    (hpre : ∀ y ∈ pre, y.Id ≠ id) (hx : x.Id = id) :
    db.findById id = (x, (pre.length : Int)) := by
  unfold fileDb.findById
  rw [hdb, findByIdFrom_split id pre x post 0 hpre hx]
  simp

theorem take_drop_split (pre : List Item) (x : Item) (post : List Item) :
    (pre ++ x :: post).take pre.length ++ (pre ++ x :: post).drop (pre.length + 1)
      = pre ++ post := by
  simp [List.take_append_eq_append_take, List.drop_append_eq_append_drop]

theorem del_split (db : fileDb) (id : String) (pre : List Item) (x : Item)
    (post : List Item) (hdb : db.records = pre ++ x :: post)
    (hpre : ∀ y ∈ pre, y.Id ≠ id) (hx : x.Id = id) :
    db.del id = (.slice (pre ++ post), "", none) := by
  have hf := findById_split db id pre x post hdb hpre hx
  have hnot : ¬ ((pre.length : Int) < 0) := by omega
  simp only [fileDb.del, hf, if_neg hnot, Int.toNat_ofNat, hdb, take_drop_split]

theorem add_absent (db : fileDb) (r : Item) (h : ∀ x ∈ db.records, x.Id ≠ r.Id) :
    db.add r = (.slice (db.records ++ [r]), "", none) := by
  have hf := findById_absent db r.Id h
  simp [fileDb.add, hf]

theorem add_present_eq (db : fileDb) (r : Item) (h : ∃ x ∈ db.records, x.Id = r.Id) :
    db.add r = (db, msgErrItemExists r.Id, none) := by
  obtain ⟨pre, x, post, hsplit, hx, hpre⟩ := exists_first_split r.Id db.records h
  have hf := findById_split db r.Id pre x post hsplit hpre hx
  have hge : (pre.length : Int) ≥ 0 := by omega
  simp only [fileDb.add, hf, if_pos hge]

theorem del_absent_eq (db : fileDb) (id : String) (h : ∀ x ∈ db.records, x.Id ≠ id) :
    db.del id = (db, msgErrIdNotFound id, none) := by
  have hf := findById_absent db id h
  simp [fileDb.del, hf]

/-! ## Theorems: in-memory operations -/

/-- C1: when no record of `c` has the id of `r`, `add` returns the empty
message and no error, and the collection afterwards is `c` with `r` appended
as its last element; every prior record keeps its position. -/
theorem add_fresh_appends (c : fileDb) (r : Item)
    (h : ∀ x ∈ c.records, x.Id ≠ r.Id) :
    (c.add r).2.1 = "" ∧ (c.add r).2.2 = none ∧
      (c.add r).1.records = c.records ++ [r] ∧
      (c.add r).1.records.getLast? = some r ∧
      ∀ i (hi : i < c.records.length),
        (c.add r).1.records[i]? = some (c.records.get ⟨i, hi⟩) := by
  rw [add_absent c r h]
  refine ⟨rfl, rfl, rfl, by simp [fileDb.records], ?_⟩
  intro i hi
  show (c.records ++ [r])[i]? = _
  rw [List.getElem?_append_left hi, List.getElem?_eq_getElem hi]
  rfl

theorem add_fresh_appends_witness :
    (∀ x ∈ (fileDb.slice [⟨"1", "a@b.com", 30⟩]).records, x.Id ≠ (⟨"2", "c@d.com", 41⟩ : Item).Id) ∧
    ((fileDb.slice [⟨"1", "a@b.com", 30⟩]).add ⟨"2", "c@d.com", 41⟩).1.records
      = [⟨"1", "a@b.com", 30⟩, ⟨"2", "c@d.com", 41⟩] :=
  ⟨by decide,
   (add_fresh_appends (fileDb.slice [⟨"1", "a@b.com", 30⟩]) ⟨"2", "c@d.com", 41⟩
      (by decide)).2.2.1⟩


/-- C2: when some record of `c` has the id of `r`, `add` leaves the
collection exactly `c`, returns the message `Item with id <r.Id> already
exists`, and reports no error. -/
theorem add_existing_unchanged (c : fileDb) (r : Item)
    (h : ∃ x ∈ c.records, x.Id = r.Id) :
    c.add r = (c, "Item with id " ++ r.Id ++ " already exists", none) := by
  rw [add_present_eq c r h]
  rfl

theorem add_existing_unchanged_witness :
    (∃ x ∈ (fileDb.slice [⟨"1", "a@b.com", 30⟩, ⟨"2", "c@d.com", 41⟩]).records,
        x.Id = (⟨"2", "other@d.com", 7⟩ : Item).Id) ∧
    (fileDb.slice [⟨"1", "a@b.com", 30⟩, ⟨"2", "c@d.com", 41⟩]).add ⟨"2", "other@d.com", 7⟩
      = (fileDb.slice [⟨"1", "a@b.com", 30⟩, ⟨"2", "c@d.com", 41⟩],
          "Item with id 2 already exists", none) :=
  ⟨by decide,
   add_existing_unchanged (fileDb.slice [⟨"1", "a@b.com", 30⟩, ⟨"2", "c@d.com", 41⟩])
      ⟨"2", "other@d.com", 7⟩ (by decide)⟩

/-- C3: when some record of `c` has the id, `del` returns the empty message
and no error, and the collection afterwards is `c` without the first record
that has the id: the records before it and the records after it (later
records with the same id among them) stay, in their order. -/
theorem del_erases_first (c : fileDb) (id : String)
    (h : ∃ x ∈ c.records, x.Id = id) :
    (c.del id).2.1 = "" ∧ (c.del id).2.2 = none ∧
      (∃ pre x post, c.records = pre ++ x :: post ∧ x.Id = id ∧
        (∀ y ∈ pre, y.Id ≠ id) ∧ (c.del id).1.records = pre ++ post) ∧
      (c.del id).1.records = c.records.eraseP (fun x => decide (x.Id = id)) := by
  obtain ⟨pre, x, post, hsplit, hx, hpre⟩ := exists_first_split id c.records h
  rw [del_split c id pre x post hsplit hpre hx]
  refine ⟨rfl, rfl, ⟨pre, x, post, hsplit, hx, hpre, rfl⟩, ?_⟩
  rw [hsplit, List.eraseP_append_right _ (by simpa using hpre),
    List.eraseP_cons_of_pos (by simpa using hx)]
  rfl

theorem del_erases_first_witness :
    (∃ x ∈ (fileDb.slice [⟨"1", "a", 1⟩, ⟨"2", "b", 2⟩, ⟨"3", "c", 3⟩, ⟨"2", "d", 4⟩]).records,
        x.Id = "2") ∧
    ((fileDb.slice [⟨"1", "a", 1⟩, ⟨"2", "b", 2⟩, ⟨"3", "c", 3⟩, ⟨"2", "d", 4⟩]).del "2").1.records
      = [⟨"1", "a", 1⟩, ⟨"3", "c", 3⟩, ⟨"2", "d", 4⟩] :=
  ⟨by decide,
   (del_erases_first
      (fileDb.slice [⟨"1", "a", 1⟩, ⟨"2", "b", 2⟩, ⟨"3", "c", 3⟩, ⟨"2", "d", 4⟩]) "2"
      (by decide)).2.2.2.trans (by decide)⟩

/-- C4: when no record of `c` has the id, `del` leaves the collection exactly
`c`, returns the message `Item with id <id> not found`, and reports no
error. -/
theorem del_absent_unchanged (c : fileDb) (id : String)
    (h : ∀ x ∈ c.records, x.Id ≠ id) :
    c.del id = (c, "Item with id " ++ id ++ " not found", none) := by
  have hf := findById_absent c id h
  simp [fileDb.del, hf, msgErrIdNotFound]

theorem del_absent_unchanged_witness :
    (∀ x ∈ (fileDb.slice [⟨"1", "a@b.com", 30⟩]).records, x.Id ≠ "9") ∧
    (fileDb.slice [⟨"1", "a@b.com", 30⟩]).del "9"
      = (fileDb.slice [⟨"1", "a@b.com", 30⟩], "Item with id 9 not found", none) :=
  ⟨by decide, del_absent_unchanged (fileDb.slice [⟨"1", "a@b.com", 30⟩]) "9" (by decide)⟩

/-- C8: when the id of `r` is not in `c`, `add` of `r` followed by `del` of
its id gives a collection with the records of `c` in the order of `c`, and
both steps return the empty message (and no error). -/
theorem add_then_del_roundtrip (c : fileDb) (r : Item)
    (h : ∀ x ∈ c.records, x.Id ≠ r.Id) :
    (c.add r).2 = ("", none) ∧ ((c.add r).1.del r.Id).2 = ("", none) ∧
      ((c.add r).1.del r.Id).1.records = c.records := by
  rw [add_absent c r h]
  have hd := del_split (fileDb.slice (c.records ++ [r])) r.Id c.records r [] rfl h rfl
  rw [hd]
  exact ⟨rfl, rfl, by simp [fileDb.records]⟩

theorem add_then_del_roundtrip_witness :
    (∀ x ∈ (fileDb.slice [⟨"1", "a@b.com", 30⟩]).records, x.Id ≠ (⟨"2", "c@d.com", 41⟩ : Item).Id) ∧
    ((((fileDb.slice [⟨"1", "a@b.com", 30⟩]).add ⟨"2", "c@d.com", 41⟩).1.del
        (⟨"2", "c@d.com", 41⟩ : Item).Id).1.records
      = (fileDb.slice [⟨"1", "a@b.com", 30⟩]).records) :=
  ⟨by decide,
   (add_then_del_roundtrip (fileDb.slice [⟨"1", "a@b.com", 30⟩]) ⟨"2", "c@d.com", 41⟩
      (by decide)).2.2⟩

/-- C9: uniqueness of ids is kept by the store operations: when no two records
of `c` share an id, neither do two records of the collection after `add` of
any record, nor of the collection after `del` of any id. -/
theorem unique_ids_invariant (c : fileDb) (h : uniqueIds c) :
    (∀ r : Item, uniqueIds (c.add r).1) ∧ (∀ id : String, uniqueIds (c.del id).1) := by
  constructor
  · intro r
    by_cases hex : ∃ x ∈ c.records, x.Id = r.Id
    · rw [add_present_eq c r hex]
      exact h
    · have hab : ∀ x ∈ c.records, x.Id ≠ r.Id := fun x hx hid => hex ⟨x, hx, hid⟩
      rw [add_absent c r hab]
      unfold uniqueIds at h ⊢
      simp only [fileDb.records, List.map_append, List.map_cons, List.map_nil]
      refine List.Nodup.append h (List.nodup_singleton _) ?_
      intro a ha1 ha2
      obtain ⟨x, hx, rfl⟩ := List.mem_map.mp ha1
      exact hab x hx (List.mem_singleton.mp ha2)
  · intro id
    by_cases hex : ∃ x ∈ c.records, x.Id = id
    · obtain ⟨pre, x, post, hsplit, hx, hpre⟩ := exists_first_split id c.records hex
      rw [del_split c id pre x post hsplit hpre hx]
      unfold uniqueIds at h ⊢
      rw [hsplit] at h
      refine List.Nodup.sublist (List.Sublist.map _ ?_) h
      exact List.Sublist.append (List.Sublist.refl pre) (List.sublist_cons_self x post)
    · have hab : ∀ x ∈ c.records, x.Id ≠ id := fun x hx hid => hex ⟨x, hx, hid⟩
      rw [del_absent_eq c id hab]
      exact h

theorem unique_ids_invariant_witness :
    uniqueIds (fileDb.slice [⟨"1", "a", 1⟩, ⟨"2", "b", 2⟩]) ∧
    uniqueIds ((fileDb.slice [⟨"1", "a", 1⟩, ⟨"2", "b", 2⟩]).add ⟨"3", "c", 3⟩).1 ∧
    uniqueIds ((fileDb.slice [⟨"1", "a", 1⟩, ⟨"2", "b", 2⟩]).del "1").1 :=
  ⟨by decide,
   (unique_ids_invariant (fileDb.slice [⟨"1", "a", 1⟩, ⟨"2", "b", 2⟩]) (by decide)).1
      ⟨"3", "c", 3⟩,
   (unique_ids_invariant (fileDb.slice [⟨"1", "a", 1⟩, ⟨"2", "b", 2⟩]) (by decide)).2 "1"⟩

/-! ## Lemmas on loading -/

theorem openCreate_of_some (fs : FS) (fn content : String) (h : fs fn = some content) :
    fs.openCreate fn = fs := by
  simp [FS.openCreate, h]

theorem unmarshalDb_empty : unmarshalDb "" = .error .syntaxError := by decide

theorem unmarshalItem_empty : unmarshalItem "" = .error .syntaxError := by decide

theorem length_pos_of_ne_empty (s : String) (h : s ≠ "") : s.length > 0 := by
  rcases s with ⟨l⟩
  cases l with
  | nil => exact absurd rfl h
  | cons a as => simp [String.length]

/-- Loading an existing file whose content decodes leaves the world as it is. -/
theorem loadDb_of_content (w : World) (fn content : String) (db : fileDb)
    (hfile : w.files fn = some content) (hdb : unmarshalDb content = .ok db) :
    loadDb w fn = (w, .ok db) := by
  have hne : content ≠ "" := by
    rintro rfl
    rw [unmarshalDb_empty] at hdb
    cases hdb
  have hlen := length_pos_of_ne_empty content hne
  simp only [loadDb, openCreate_of_some w.files fn content hfile, hfile, hdb, if_pos hlen]

/-- Loading never touches the writer. -/
theorem loadDb_out (w : World) (fn : String) : (loadDb w fn).1.out = w.out := by
  simp only [loadDb]
  split
  · rfl
  · split
    · split <;> rfl
    · rfl

namespace Json

/-! ## Round trip of the codec: numbers -/

theorem digitChar_isDigit (d : Nat) (h : d < 10) : isDigit (Nat.digitChar d) = true := by
  interval_cases d <;> decide

theorem digitChar_val (d : Nat) (h : d < 10) : (Nat.digitChar d).toNat - 48 = d := by
  interval_cases d <;> decide

theorem digitChar_eq_zero (d : Nat) (h : d < 10) (h0 : Nat.digitChar d = '0') : d = 0 := by
  interval_cases d <;> first | rfl | exact absurd h0 (by decide)

theorem digitsVal_append (xs : List Char) (c : Char) :
    digitsVal (xs ++ [c]) = digitsVal xs * 10 + (c.toNat - 48) := by
  simp [digitsVal, List.foldl_append]

/-- The decimal digits of a number: a digit first, which is `0` only for the
number zero, digits only, and the number as their value. -/
theorem decimal_spec (f n : Nat) (h : n < f) :
    (∃ c tl, decimal f n = c :: tl ∧ isDigit c = true ∧ (c = '0' → n = 0 ∧ tl = [])) ∧
      (∀ c ∈ decimal f n, isDigit c = true) ∧ digitsVal (decimal f n) = n := by
  induction f generalizing n with
  | zero => omega
  | succ f ih =>
    by_cases hn : n < 10
    · simp only [decimal, if_pos hn]
      refine ⟨⟨_, [], rfl, digitChar_isDigit n hn, fun h0 => ⟨digitChar_eq_zero n hn h0, rfl⟩⟩, ?_, ?_⟩
      · intro c hc
        rw [List.mem_singleton.mp hc]
        exact digitChar_isDigit n hn
      · simp [digitsVal, digitChar_val n hn]
    · simp only [decimal, if_neg hn]
      have hlt : n / 10 < f := by omega
      obtain ⟨⟨c, tl, hc, hdig, hzero⟩, hall, hval⟩ := ih (n / 10) hlt
      have hmod : n % 10 < 10 := Nat.mod_lt _ (by omega)
      refine ⟨⟨c, tl ++ [Nat.digitChar (n % 10)], by rw [hc]; rfl, hdig, ?_⟩, ?_, ?_⟩
      · intro h0
        have := (hzero h0).1
        omega
      · intro x hx
        rcases List.mem_append.mp hx with hx | hx
        · exact hall x hx
        · rw [List.mem_singleton.mp hx]
          exact digitChar_isDigit _ hmod
      · rw [digitsVal_append, hval, digitChar_val _ hmod]
        omega

theorem encodeNat_spec (n : Nat) :
    (∃ c tl, encodeNat n = c :: tl ∧ isDigit c = true ∧ (c = '0' → n = 0 ∧ tl = [])) ∧
      (∀ c ∈ encodeNat n, isDigit c = true) ∧ digitsVal (encodeNat n) = n :=
  decimal_spec (n + 1) n (Nat.lt_succ_self n)

theorem takeDigits_append (ds : List Char) (c : Char) (rest : List Char)
    (hds : ∀ x ∈ ds, isDigit x = true) (hc : isDigit c = false) :
    takeDigits (ds ++ c :: rest) = (ds, c :: rest) := by
  induction ds with
  | nil => simp [takeDigits, hc]
  | cons d ds ih =>
    have hd : isDigit d = true := hds d (List.mem_cons_self _ _)
    have ih2 := ih (fun x hx => hds x (List.mem_cons_of_mem _ hx))
    show takeDigits (d :: (ds ++ c :: rest)) = _
    simp only [takeDigits, hd, if_true, ih2]

theorem ne_of_isDigit {c x : Char} (h : isDigit c = true) (hx : isDigit x = false) : c ≠ x := by
  rintro rfl
  rw [h] at hx
  cases hx

theorem scanInt_encodeNat (n : Nat) (r : List Char) :
    scanInt (encodeNat n ++ '}' :: r) = some (encodeNat n, '}' :: r) := by
  obtain ⟨⟨c, tl, hc, hdig, hzero⟩, hall, _⟩ := encodeNat_spec n
  rw [hc] at hall ⊢
  by_cases h0 : c = '0'
  · obtain ⟨_, htl⟩ := hzero h0
    subst htl
    simp [scanInt, h0]
  · have htake := takeDigits_append tl '}' r
      (fun x hx => hall x (List.mem_cons_of_mem _ hx)) (by decide)
    simp only [List.cons_append, scanInt, if_neg h0, hdig, if_true, htake]

theorem scanNumber_encodeNat (n : Nat) (r : List Char) :
    scanNumber (encodeNat n ++ '}' :: r) = some (encodeNat n, '}' :: r) := by
  obtain ⟨⟨c, tl, hc, hdig, _⟩, _, _⟩ := encodeNat_spec n
  have hminus : c ≠ '-' := ne_of_isDigit hdig (by decide)
  have hint := scanInt_encodeNat n r
  rw [hc] at hint ⊢
  rw [List.cons_append] at hint ⊢
  simp [scanNumber, hminus, hint, scanFrac, scanExp]

theorem scanNumber_encodeInt (n : Int) (r : List Char) :
    scanNumber (encodeInt n ++ '}' :: r) = some (encodeInt n, '}' :: r) := by
  cases n with
  | ofNat m => exact scanNumber_encodeNat m r
  | negSucc m =>
    have hint := scanInt_encodeNat (m + 1) r
    simp [encodeInt, scanNumber, hint, scanFrac, scanExp]

theorem all_isDigit (ds : List Char) (h : ∀ c ∈ ds, isDigit c = true) :
    ds.all isDigit = true := by
  simpa [List.all_eq_true] using h

theorem parseInt64_encodeInt (n : Int) (h : int64 n) : parseInt64 (encodeInt n) = some n := by
  cases n with
  | ofNat m =>
    obtain ⟨⟨c, tl, hc, hdig, _⟩, hall, hval⟩ := encodeNat_spec m
    have hminus : c ≠ '-' := ne_of_isDigit hdig (by decide)
    have hall2 := all_isDigit _ hall
    rw [hc] at hall2 hval
    have hv : int64 ((digitsVal (c :: tl) : Nat) : Int) := by rw [hval]; exact h
    simp only [encodeInt, hc, parseInt64, if_neg hminus]
    simp [hall2, hv, hval]
    try exact h
  | negSucc m =>
    obtain ⟨⟨c, tl, hc, hdig, _⟩, hall, hval⟩ := encodeNat_spec (m + 1)
    have hall2 := all_isDigit _ hall
    rw [hc] at hall2 hval
    have hneg : -((digitsVal (c :: tl) : Nat) : Int) = Int.negSucc m := by
      rw [hval]; rfl
    have hv : int64 (-((digitsVal (c :: tl) : Nat) : Int)) := by rw [hneg]; exact h
    simp only [encodeInt, hc, parseInt64]
    simp [hall2, hv, hneg]
    try exact h

/-! ## Round trip of the codec: strings -/

theorem unquoteLoop_raw (f : Nat) (c : Char) (tail : List Char) (h1 : c ≠ '"')
    (h2 : c ≠ '\\') (h3 : ¬ c.toNat < 32) :
    unquoteLoop (f + 1) (c :: tail) = (unquoteLoop f tail).map (fun p => (c :: p.1, p.2)) := by
  simp only [unquoteLoop, h1, h2, h3, if_false]

set_option maxRecDepth 100000 in
theorem hex4_hexDigit :
    ∀ n < 256, hex4 '0' '0' (hexDigit (n / 16)) (hexDigit (n % 16)) = some n := by
  decide

/-- An escape `\uXXXX` that is not a surrogate denotes the character of its
number. -/
theorem unquoteLoop_u (f n : Nat) (a b c d : Char) (tail : List Char)
    (hhex : hex4 a b c d = some n) (hsur : isSurrogate n = false) :
    unquoteLoop (f + 1) ('\\' :: 'u' :: a :: b :: c :: d :: tail)
      = (unquoteLoop f tail).map (fun p => (Char.ofNat n :: p.1, p.2)) := by
  simp [unquoteLoop, getu4, hhex, hsur]

theorem isSurrogate_small (n : Nat) (h : n < 0xD800) : isSurrogate n = false := by
  simp only [isSurrogate, Bool.and_eq_false_imp, decide_eq_true_eq, decide_eq_false_iff_not]
  omega

theorem unquoteLoop_escapeChar (f : Nat) (c : Char) (tail : List Char) :
    unquoteLoop (f + 1) (escapeChar c ++ tail)
      = (unquoteLoop f tail).map (fun p => (c :: p.1, p.2)) := by
  unfold escapeChar
  split
  · rename_i h
    rcases h with rfl | rfl <;> simp [unquoteLoop, simpleEscape]
  split
  · rename_i h; subst h; simp [unquoteLoop, simpleEscape]
  split
  · rename_i h; subst h; simp [unquoteLoop, simpleEscape]
  split
  · rename_i h; subst h; simp [unquoteLoop, simpleEscape]
  split
  · rename_i h; subst h; simp [unquoteLoop, simpleEscape]
  split
  · rename_i h; subst h; simp [unquoteLoop, simpleEscape]
  split
  · rename_i h
    have hlt : c.toNat < 256 := by
      rcases h with h | rfl | rfl | rfl
      · omega
      · decide
      · decide
      · decide
    have := unquoteLoop_u f c.toNat '0' '0' _ _ tail (hex4_hexDigit c.toNat hlt)
      (isSurrogate_small _ (by omega))
    rw [Char.ofNat_toNat] at this
    exact this
  split
  · rename_i h
    have hhex : hex4 '2' '0' '2' (hexDigit (c.toNat % 16)) = some c.toNat := by
      rcases h with h | h <;> rw [h] <;> decide
    have := unquoteLoop_u f c.toNat '2' '0' '2' _ tail hhex
      (isSurrogate_small _ (by omega))
    rw [Char.ofNat_toNat] at this
    exact this
  · rename_i h1 h2 h3 h4 h5 h6 h7 h8
    have hq : c ≠ '"' := fun h => h1 (Or.inl h)
    have hb : c ≠ '\\' := fun h => h1 (Or.inr h)
    have hlt : ¬ c.toNat < 32 := fun h => h7 (Or.inl h)
    exact unquoteLoop_raw f c tail hq hb hlt

theorem escapeChar_length (c : Char) : 1 ≤ (escapeChar c).length := by
  unfold escapeChar
  repeat' split
  all_goals simp

theorem escapeChars_length (cs : List Char) : cs.length ≤ (escapeChars cs).length := by
  induction cs with
  | nil => simp [escapeChars]
  | cons c cs ih =>
    have := escapeChar_length c
    simp only [escapeChars, List.length_append, List.length_cons]
    omega

theorem unquoteLoop_escapeChars (cs : List Char) (f : Nat) (rest : List Char)
    (hf : cs.length < f) :
    unquoteLoop f (escapeChars cs ++ '"' :: rest) = some (cs, rest) := by
  induction cs generalizing f with
  | nil =>
    obtain ⟨g, rfl⟩ : ∃ g, f = g + 1 := ⟨f - 1, by simp at hf; omega⟩
    simp [escapeChars, unquoteLoop]
  | cons c cs ih =>
    obtain ⟨g, rfl⟩ : ∃ g, f = g + 1 := ⟨f - 1, by omega⟩
    have hg : cs.length < g := by simp at hf; omega
    simp only [escapeChars, List.append_assoc]
    rw [unquoteLoop_escapeChar, ih g hg]
    rfl

theorem unquote_escapeChars (cs rest : List Char) :
    unquote (escapeChars cs ++ '"' :: rest) = some (cs, rest) := by
  unfold unquote
  apply unquoteLoop_escapeChars
  have := escapeChars_length cs
  simp only [List.length_append, List.length_cons]
  omega

/-! ## Round trip of the codec: records and collections -/

theorem parseValue_string (f d : Nat) (s : String) (rest : List Char) :
    parseValue (f + 1) d (encodeString s ++ rest) = some (.string s.data, rest) := by
  have h := unquote_escapeChars s.data rest
  simp [encodeString, parseValue, skipSpace, isSpace, h]

theorem encodeInt_head (n : Int) :
    ∃ c tl, encodeInt n = c :: tl ∧ (c = '-' ∨ isDigit c = true) := by
  cases n with
  | ofNat m =>
    obtain ⟨⟨c, tl, hc, hdig, _⟩, _, _⟩ := encodeNat_spec m
    exact ⟨c, tl, hc, Or.inr hdig⟩
  | negSucc m => exact ⟨'-', _, rfl, Or.inl rfl⟩

theorem parseValue_int (f d : Nat) (n : Int) (r : List Char) :
    parseValue (f + 1) d (encodeInt n ++ '}' :: r) = some (.number (encodeInt n), '}' :: r) := by
  have hscan := scanNumber_encodeInt n r
  obtain ⟨c, tl, hc, hhead⟩ := encodeInt_head n
  rw [hc] at hscan ⊢
  rw [List.cons_append] at hscan ⊢
  have hsp : isSpace c = false := by
    rcases hhead with rfl | h
    · decide
    · cases hs : isSpace c
      · rfl
      · exact absurd rfl (ne_of_isDigit h (x := c) (by
          simp only [isSpace, Bool.or_eq_true, decide_eq_true_eq] at hs
          rcases hs with ((rfl | rfl) | rfl) | rfl <;> decide))
  have hne : ∀ x : Char, x ≠ '-' → isDigit x = false → c ≠ x := by
    intro x hx1 hx2
    rcases hhead with rfl | h
    · exact fun h => hx1 h.symm
    · exact ne_of_isDigit h hx2
  have h1 := hne '{' (by decide) (by decide)
  have h2 := hne '[' (by decide) (by decide)
  have h3 := hne '"' (by decide) (by decide)
  have h4 := hne 't' (by decide) (by decide)
  have h5 := hne 'f' (by decide) (by decide)
  have h6 := hne 'n' (by decide) (by decide)
  simp only [parseValue, skipSpace, hsp, h1, h2, h3, h4, h5, h6, if_false, hhead, if_true,
    hscan, Option.map_some', Bool.false_eq_true]

theorem parseMembers_more (f d : Nat) (x : List Char) (key : List Char) (v : Value)
    (vs r : List Char) (hk : unquote x = some (key, ':' :: vs))
    (hv : parseValue f d vs = some (v, ',' :: r)) :
    parseMembers (f + 1) d ('"' :: x)
      = (parseMembers f d r).map (fun p => ((key, v) :: p.1, p.2)) := by
  simp [parseMembers, skipSpace, isSpace, hk, hv]

theorem parseMembers_last (f d : Nat) (x : List Char) (key : List Char) (v : Value)
    (vs r : List Char) (hk : unquote x = some (key, ':' :: vs))
    (hv : parseValue f d vs = some (v, '}' :: r)) :
    parseMembers (f + 1) d ('"' :: x) = some ([(key, v)], r) := by
  simp [parseMembers, skipSpace, isSpace, hk, hv]

theorem encodeItem_eq (it : Item) (rest : List Char) :
    encodeItem it ++ rest =
      '{' :: '"' :: 'i' :: 'd' :: '"' :: ':' :: (encodeString it.Id ++
        (',' :: '"' :: 'e' :: 'm' :: 'a' :: 'i' :: 'l' :: '"' :: ':' :: (encodeString it.Email ++
          (',' :: '"' :: 'a' :: 'g' :: 'e' :: '"' :: ':' :: (encodeInt it.Age ++
            '}' :: rest))))) := by
  simp [encodeItem]

theorem parseValue_item (f d : Nat) (it : Item) (rest : List Char)
    (hd : d < maxNestingDepth) :
    parseValue (f + 5) d (encodeItem it ++ rest) = some (itemValue it, rest) := by
  have hage : parseMembers (f + 2) (d + 1)
      ('"' :: 'a' :: 'g' :: 'e' :: '"' :: ':' :: (encodeInt it.Age ++ '}' :: rest))
      = some ([(['a', 'g', 'e'], .number (encodeInt it.Age))], rest) :=
    parseMembers_last (f + 1) (d + 1) _ ['a', 'g', 'e'] _ (encodeInt it.Age ++ '}' :: rest) rest
      (by simp [unquote, unquoteLoop]) (parseValue_int f (d + 1) it.Age rest)
  have hemail : parseMembers (f + 3) (d + 1)
      ('"' :: 'e' :: 'm' :: 'a' :: 'i' :: 'l' :: '"' :: ':' :: (encodeString it.Email ++
        (',' :: '"' :: 'a' :: 'g' :: 'e' :: '"' :: ':' :: (encodeInt it.Age ++ '}' :: rest))))
      = some ([(['e', 'm', 'a', 'i', 'l'], .string it.Email.data),
          (['a', 'g', 'e'], .number (encodeInt it.Age))], rest) := by
    rw [parseMembers_more (f + 2) (d + 1) _ ['e', 'm', 'a', 'i', 'l'] (.string it.Email.data)
      (encodeString it.Email ++
        (',' :: '"' :: 'a' :: 'g' :: 'e' :: '"' :: ':' :: (encodeInt it.Age ++ '}' :: rest)))
      ('"' :: 'a' :: 'g' :: 'e' :: '"' :: ':' :: (encodeInt it.Age ++ '}' :: rest))
      (by simp [unquote, unquoteLoop]) (parseValue_string (f + 1) (d + 1) it.Email _), hage]
    rfl
  have hid : parseMembers (f + 4) (d + 1)
      ('"' :: 'i' :: 'd' :: '"' :: ':' :: (encodeString it.Id ++
        (',' :: '"' :: 'e' :: 'm' :: 'a' :: 'i' :: 'l' :: '"' :: ':' :: (encodeString it.Email ++
          (',' :: '"' :: 'a' :: 'g' :: 'e' :: '"' :: ':' :: (encodeInt it.Age ++ '}' :: rest))))))
      = some ([(['i', 'd'], .string it.Id.data), (['e', 'm', 'a', 'i', 'l'], .string it.Email.data),
          (['a', 'g', 'e'], .number (encodeInt it.Age))], rest) := by
    rw [parseMembers_more (f + 3) (d + 1) _ ['i', 'd'] (.string it.Id.data)
      (encodeString it.Id ++
        (',' :: '"' :: 'e' :: 'm' :: 'a' :: 'i' :: 'l' :: '"' :: ':' :: (encodeString it.Email ++
          (',' :: '"' :: 'a' :: 'g' :: 'e' :: '"' :: ':' :: (encodeInt it.Age ++ '}' :: rest)))))
      ('"' :: 'e' :: 'm' :: 'a' :: 'i' :: 'l' :: '"' :: ':' :: (encodeString it.Email ++
          (',' :: '"' :: 'a' :: 'g' :: 'e' :: '"' :: ':' :: (encodeInt it.Age ++ '}' :: rest))))
      (by simp [unquote, unquoteLoop]) (parseValue_string (f + 2) (d + 1) it.Id _), hemail]
    rfl
  rw [encodeItem_eq]
  have hdepth : ¬ d ≥ maxNestingDepth := by omega
  simp [parseValue, skipSpace, isSpace, hdepth, hid, itemValue]

theorem encodeItem_length (it : Item) : 1 ≤ (encodeItem it).length := by
  have := encodeItem_eq it []
  rw [List.append_nil] at this
  rw [this]
  simp

theorem encodeItems_cons_cons (it it2 : Item) (its : List Item) :
    encodeItems (it :: it2 :: its) = encodeItem it ++ ',' :: encodeItems (it2 :: its) := rfl

theorem encodeItems_length (its : List Item) : its.length ≤ (encodeItems its).length := by
  induction its with
  | nil => simp
  | cons it its ih =>
    cases its with
    | nil => simpa [encodeItems] using encodeItem_length it
    | cons it2 its =>
      have := encodeItem_length it
      rw [encodeItems_cons_cons]
      simp only [List.length_append, List.length_cons] at ih ⊢
      omega

theorem parseElems_more (f d : Nat) (cs : List Char) (v : Value) (r : List Char)
    (hv : parseValue f d cs = some (v, ',' :: r)) :
    parseElems (f + 1) d cs = (parseElems f d r).map (fun p => (v :: p.1, p.2)) := by
  simp [parseElems, hv, skipSpace, isSpace]

theorem parseElems_last (f d : Nat) (cs : List Char) (v : Value) (r : List Char)
    (hv : parseValue f d cs = some (v, ']' :: r)) :
    parseElems (f + 1) d cs = some ([v], r) := by
  simp [parseElems, hv, skipSpace, isSpace]

theorem parseElems_items (its : List Item) (it : Item) (f d : Nat) (rest : List Char)
    (hd : d < maxNestingDepth) (hf : its.length + 6 ≤ f) :
    parseElems f d (encodeItems (it :: its) ++ ']' :: rest)
      = some ((it :: its).map itemValue, rest) := by
  induction its generalizing it f with
  | nil =>
    obtain ⟨g, rfl⟩ : ∃ g, f = g + 6 := ⟨f - 6, by simp at hf; omega⟩
    have hv := parseValue_item g d it (']' :: rest) hd
    rw [show encodeItems [it] = encodeItem it from rfl, parseElems_last (g + 5) d _ _ _ hv]
    rfl
  | cons it2 its ih =>
    obtain ⟨g, rfl⟩ : ∃ g, f = g + 6 := ⟨f - 6, by simp at hf; omega⟩
    have hg : its.length + 6 ≤ g + 5 := by simp at hf; omega
    have hv := parseValue_item g d it (',' :: (encodeItems (it2 :: its) ++ ']' :: rest)) hd
    have ih2 := ih it2 (g + 5) hg
    rw [encodeItems_cons_cons, List.append_assoc, List.cons_append,
      parseElems_more (g + 5) d _ _ _ hv, ih2]
    rfl

theorem parse_encodeItems (its : List Item) :
    parse ('[' :: (encodeItems its ++ [']'])) = some (.array (its.map itemValue)) := by
  cases its with
  | nil => simp [parse, parseValue, skipSpace, isSpace, encodeItems, maxNestingDepth]
  | cons it its =>
    obtain ⟨x, hx⟩ : ∃ x, encodeItems (it :: its) ++ [']'] = '{' :: x := by
      cases its with
      | nil => exact ⟨_, encodeItem_eq it [']']⟩
      | cons it2 its =>
        rw [encodeItems_cons_cons, List.append_assoc]
        exact ⟨_, encodeItem_eq it _⟩
    have hlen := encodeItems_length (it :: its)
    have hfuel : its.length + 6 ≤ 2 * ('[' :: (encodeItems (it :: its) ++ [']'])).length + 1 := by
      simp only [List.length_cons, List.length_append, List.length_nil] at hlen ⊢
      omega
    have hel := parseElems_items its it _ 1 [] (by decide) hfuel
    rw [hx] at hel
    unfold parse
    rw [show 2 * ('[' :: (encodeItems (it :: its) ++ [']'])).length + 2
        = (2 * ('[' :: (encodeItems (it :: its) ++ [']'])).length + 1) + 1 from rfl]
    rw [hx]
    simp only [List.length_cons] at hel
    simp [parseValue, skipSpace, isSpace, maxNestingDepth, hel]

/-! ## Round trip of the codec: decoding -/

theorem setFields_itemValue (it : Item) (h : int64 it.Age) :
    decodeItem Item.zero (itemValue it) = some it := by
  have hp := parseInt64_encodeInt it.Age h
  simp [decodeItem, itemValue, setFields, setField, storeString, storeInt, lower, hp, Item.zero]

theorem decodeItems_itemValue (its : List Item) (h : ∀ x ∈ its, int64 x.Age) :
    decodeItems (its.map itemValue) = some its := by
  induction its with
  | nil => rfl
  | cons it its ih =>
    have h1 := setFields_itemValue it (h it (List.mem_cons_self _ _))
    have h2 := ih (fun x hx => h x (List.mem_cons_of_mem _ hx))
    simp [decodeItems, h1, h2]

/-! ## Decoded ages fit 64 bits -/

theorem parseInt64_int64 (lit : List Char) (n : Int) (h : parseInt64 lit = some n) :
    int64 n := by
  unfold parseInt64 at h
  simp only at h
  split_ifs at h with h1 h2 h3 h4 <;> (injection h with h; subst h; assumption)

theorem storeInt_int64 (cur : Int) (v : Value) (n : Int) (hcur : int64 cur)
    (h : storeInt cur v = some n) : int64 n := by
  cases v with
  | null => simp only [storeInt] at h; cases h; exact hcur
  | number lit => exact parseInt64_int64 lit n h
  | bool b => simp [storeInt] at h
  | string s => simp [storeInt] at h
  | array es => simp [storeInt] at h
  | object ms => simp [storeInt] at h

theorem setField_int64 (it it1 : Item) (key : List Char) (v : Value) (hit : int64 it.Age)
    (h : setField it key v = some it1) : int64 it1.Age := by
  unfold setField at h
  split at h
  · obtain ⟨s, _, rfl⟩ := Option.map_eq_some'.mp h
    exact hit
  · split at h
    · obtain ⟨s, _, rfl⟩ := Option.map_eq_some'.mp h
      exact hit
    · split at h
      · obtain ⟨n, hn, rfl⟩ := Option.map_eq_some'.mp h
        exact storeInt_int64 it.Age v n hit hn
      · cases h
        exact hit

theorem setFields_int64 (ms : List (List Char × Value)) (it it1 : Item) (hit : int64 it.Age)
    (h : setFields it ms = some it1) : int64 it1.Age := by
  induction ms generalizing it with
  | nil => simp only [setFields] at h; cases h; exact hit
  | cons m ms ih =>
    obtain ⟨k, v⟩ := m
    simp only [setFields] at h
    split at h
    · cases h
    · rename_i it2 h2
      exact ih it2 (setField_int64 it it2 k v hit h2) h

theorem decodeItem_int64 (v : Value) (it it1 : Item) (hit : int64 it.Age)
    (h : decodeItem it v = some it1) : int64 it1.Age := by
  cases v with
  | null => simp only [decodeItem] at h; cases h; exact hit
  | object ms => exact setFields_int64 ms it it1 hit h
  | bool b => simp [decodeItem] at h
  | string s => simp [decodeItem] at h
  | array es => simp [decodeItem] at h
  | number lit => simp [decodeItem] at h

theorem decodeItems_int64 (vs : List Value) (its : List Item)
    (h : decodeItems vs = some its) : ∀ x ∈ its, int64 x.Age := by
  induction vs generalizing its with
  | nil => simp only [decodeItems] at h; cases h; simp
  | cons v vs ih =>
    simp only [decodeItems] at h
    split at h
    · cases h
    · rename_i it hit
      obtain ⟨its1, h1, rfl⟩ := Option.map_eq_some'.mp h
      intro x hx
      rcases List.mem_cons.mp hx with rfl | hx
      · exact decodeItem_int64 v Item.zero _ (by decide) hit
      · exact ih its1 h1 x hx

theorem decodeDb_int64 (v : Value) (db : fileDb) (h : decodeDb v = some db) :
    ∀ x ∈ db.records, int64 x.Age := by
  cases v with
  | null => simp only [decodeDb] at h; cases h; simp [fileDb.records]
  | array es =>
    obtain ⟨its, h1, rfl⟩ := Option.map_eq_some'.mp h
    exact decodeItems_int64 es its h1
  | bool b => simp [decodeDb] at h
  | string s => simp [decodeDb] at h
  | object ms => simp [decodeDb] at h
  | number lit => simp [decodeDb] at h

end Json

/-- Every age of a decoded collection fits a 64-bit integer. -/
theorem unmarshalDb_int64 (content : String) (db : fileDb)
    (h : unmarshalDb content = .ok db) : ∀ x ∈ db.records, Json.int64 x.Age := by
  unfold unmarshalDb at h
  split at h
  · cases h
  · rename_i v _
    split at h
    · cases h
    · rename_i db1 hdb
      cases h
      exact Json.decodeDb_int64 v db hdb

/-- Decoding what `json.Marshal` wrote gives the collection back. -/
theorem unmarshalDb_marshalDb (db : fileDb) (h : ∀ x ∈ db.records, Json.int64 x.Age) :
    unmarshalDb (marshalDb db) = .ok db := by
  cases db with
  | nil => decide
  | slice items =>
    have hp := Json.parse_encodeItems items
    have hd := Json.decodeItems_itemValue items h
    simp [unmarshalDb, marshalDb, hp, Json.decodeDb, hd]


/-! ## Lemmas on the operations -/

/-- Every age of a decoded item fits a 64-bit integer. -/
theorem unmarshalItem_int64 (text : String) (itm : Item)
    (h : unmarshalItem text = .ok itm) : Json.int64 itm.Age := by
  unfold unmarshalItem at h
  split at h
  · cases h
  · rename_i v _
    split at h
    · cases h
    · rename_i it1 hit
      cases h
      exact Json.decodeItem_int64 v Item.zero _ (by decide) hit

/-- Every age of a loaded collection fits a 64-bit integer. -/
theorem loadDb_int64 (w w1 : World) (fn : String) (db : fileDb)
    (h : loadDb w fn = (w1, .ok db)) : ∀ x ∈ db.records, Json.int64 x.Age := by
  simp only [loadDb] at h
  split at h
  · cases h
  · split at h
    · split at h
      · cases h
      · rename_i db1 hdb
        cases h
        exact unmarshalDb_int64 _ _ hdb
    · cases h
      simp [fileDb.records]

/-- After loading, the file is there. -/
theorem loadDb_files (w w1 : World) (fn : String) (db : fileDb)
    (h : loadDb w fn = (w1, .ok db)) : w1 = { w with files := w.files.openCreate fn } := by
  simp only [loadDb] at h
  split at h
  · cases h
  · split at h
    · split at h
      · cases h
      · cases h; rfl
    · cases h; rfl

/-- What `findId` writes when the collection holds the id: the serialisation
of the first record with the id when that record is not the first of the
collection, and nothing when it is. -/
theorem findId_of_split (w w1 : World) (fn id : String) (db : fileDb)
    (pre : List Item) (x : Item) (post : List Item)
    (hid : id ≠ "") (hload : loadDb w fn = (w1, .ok db))
    (hdb : db.records = pre ++ x :: post) (hpre : ∀ y ∈ pre, y.Id ≠ id) (hx : x.Id = id) :
    findId w fn id = (w1.write (if pre = [] then "" else marshalItem x), none) := by
  have hf := findById_split db id pre x post hdb hpre hx
  cases pre with
  | nil => simp [findId, hid, hload, hf]
  | cons p ps =>
    have hpos : ((p :: ps).length : Int) > 0 := by
      rw [List.length_cons]
      omega
    have hcons : ¬ (p :: ps = []) := List.cons_ne_nil p ps
    simp only [findId, if_neg hid, hload, hf, if_pos hpos, if_neg hcons]

/-- The operation `add` of a valid item with a fresh id, followed by `findById`
of that id: both succeed, and `findById` writes the serialisation of the added
record exactly when the store held a record before the `add`. -/
theorem addItem_then_findId (w w1 : World) (fn item : String) (itm : Item) (db : fileDb)
    (hitem : unmarshalItem item = .ok itm) (hid : itm.Id ≠ "")
    (hload : loadDb w fn = (w1, .ok db)) (hfresh : ∀ x ∈ db.records, x.Id ≠ itm.Id) :
    (addItem w fn item).2 = none ∧ (addItem w fn item).1.out = w.out ∧
      (findId (addItem w fn item).1 fn itm.Id).2 = none ∧
      (findId (addItem w fn item).1 fn itm.Id).1.out
        = w.out ++ (if db.records = [] then "" else marshalItem itm) := by
  have hne : item ≠ "" := by
    rintro rfl
    rw [unmarshalItem_empty] at hitem
    cases hitem
  have hout := loadDb_out w fn
  rw [hload] at hout
  have hadd := add_absent db itm hfresh
  have hrun : addItem w fn item
      = ({ w1 with files := w1.files.write fn (marshalDb (.slice (db.records ++ [itm]))) },
          none) := by
    simp only [addItem, if_neg hne, hitem, hload, hadd, saveDb, World.write, String.append_empty]
  have hrange : ∀ x ∈ (fileDb.slice (db.records ++ [itm])).records, Json.int64 x.Age := by
    intro x hx
    rcases List.mem_append.mp hx with hx | hx
    · exact loadDb_int64 w w1 fn db hload x hx
    · rw [List.mem_singleton.mp hx]
      exact unmarshalItem_int64 item itm hitem
  have hload2 := loadDb_of_content
    { w1 with files := w1.files.write fn (marshalDb (.slice (db.records ++ [itm]))) } fn
    (marshalDb (.slice (db.records ++ [itm]))) (.slice (db.records ++ [itm]))
    (by simp [FS.write]) (unmarshalDb_marshalDb _ hrange)
  have hfind := findId_of_split _ _ fn itm.Id (.slice (db.records ++ [itm])) db.records itm []
    hid hload2 rfl hfresh rfl
  rw [hrun]
  refine ⟨rfl, hout, by rw [hfind], ?_⟩
  rw [hfind]
  have hout2 : w1.out = w.out := hout
  simp only [World.write, hout2]

/-! ## Theorems: the operations on the store file -/

/-- C5: at the store holding the single record `{"1", "a@b.com", 30}`, the
operation `findById` with id `1` returns no error and writes nothing, where
the specification expects `{"id":"1","email":"a@b.com","age":30}`: the record is at
index 0 and `findId` serialises it only under `idx > 0`. -/
theorem findId_first_record_silent :
    unmarshalDb "[\x7b\"id\":\"1\",\"email\":\"a@b.com\",\"age\":30\x7d]"
        = .ok (.slice [⟨"1", "a@b.com", 30⟩]) ∧
      (fileDb.slice [⟨"1", "a@b.com", 30⟩]).findById "1" = (⟨"1", "a@b.com", 30⟩, 0) ∧
      marshalItem ⟨"1", "a@b.com", 30⟩ = "\x7b\"id\":\"1\",\"email\":\"a@b.com\",\"age\":30\x7d" ∧
      (findId (World.single "db.json" "[\x7b\"id\":\"1\",\"email\":\"a@b.com\",\"age\":30\x7d]")
          "db.json" "1").2 = none ∧
      (findId (World.single "db.json" "[\x7b\"id\":\"1\",\"email\":\"a@b.com\",\"age\":30\x7d]")
          "db.json" "1").1.out = "" := by
  refine ⟨by decide, by decide, by decide, by decide, by decide⟩

/-- C6: when the collection loaded from the store holds no record with the
requested non-empty id, `findById` returns no error and writes the empty
output: the writer holds what it held before. -/
theorem findId_absent_silent (w w1 : World) (fn id : String) (db : fileDb)
    (hid : id ≠ "") (hload : loadDb w fn = (w1, .ok db))
    (h : ∀ x ∈ db.records, x.Id ≠ id) :
    findId w fn id = (w1.write "", none) ∧ (findId w fn id).1.out = w.out := by
  have hf := findById_absent db id h
  have hfind : findId w fn id = (w1.write "", none) := by
    simp [findId, hid, hload, hf]
  refine ⟨hfind, ?_⟩
  have hout := loadDb_out w fn
  rw [hload] at hout
  rw [hfind]
  simp only [World.write, String.append_empty]
  exact hout

theorem findId_absent_silent_witness :
    ("9" : String) ≠ "" ∧
    loadDb (World.single "db.json" "[\x7b\"id\":\"1\",\"email\":\"a@b.com\",\"age\":30\x7d]") "db.json"
      = ((World.single "db.json" "[\x7b\"id\":\"1\",\"email\":\"a@b.com\",\"age\":30\x7d]"),
         .ok (.slice [⟨"1", "a@b.com", 30⟩])) ∧
    (findId (World.single "db.json" "[\x7b\"id\":\"1\",\"email\":\"a@b.com\",\"age\":30\x7d]")
        "db.json" "9").1.out = "" :=
  ⟨by decide,
   loadDb_of_content
      (World.single "db.json" "[\x7b\"id\":\"1\",\"email\":\"a@b.com\",\"age\":30\x7d]")
      "db.json" "[\x7b\"id\":\"1\",\"email\":\"a@b.com\",\"age\":30\x7d]"
      (.slice [⟨"1", "a@b.com", 30⟩]) (by decide) (by decide),
   (findId_absent_silent
      (World.single "db.json" "[\x7b\"id\":\"1\",\"email\":\"a@b.com\",\"age\":30\x7d]")
      (World.single "db.json" "[\x7b\"id\":\"1\",\"email\":\"a@b.com\",\"age\":30\x7d]")
      "db.json" "9" (.slice [⟨"1", "a@b.com", 30⟩]) (by decide)
      (loadDb_of_content
        (World.single "db.json" "[\x7b\"id\":\"1\",\"email\":\"a@b.com\",\"age\":30\x7d]")
        "db.json" "[\x7b\"id\":\"1\",\"email\":\"a@b.com\",\"age\":30\x7d]"
        (.slice [⟨"1", "a@b.com", 30⟩]) (by decide) (by decide))
      (by decide)).2⟩

/-- C7: on the empty store file, `add` of the item
`{"id":"1","email":"a@b.com","age":30}` succeeds and stores the record, and
`findById` with id `1` on the resulting store then writes nothing, where the
specification expects the serialisation of the added record: the record is at index
0 and `findId` serialises it only under `idx > 0`. -/
theorem add_then_findId_empty_store_silent :
    (addItem (World.single "db.json" "") "db.json"
        "\x7b\"id\":\"1\",\"email\":\"a@b.com\",\"age\":30\x7d").2 = none ∧
      (addItem (World.single "db.json" "") "db.json"
        "\x7b\"id\":\"1\",\"email\":\"a@b.com\",\"age\":30\x7d").1.files "db.json"
        = some "[\x7b\"id\":\"1\",\"email\":\"a@b.com\",\"age\":30\x7d]" ∧
      (findId
        (addItem (World.single "db.json" "") "db.json"
          "\x7b\"id\":\"1\",\"email\":\"a@b.com\",\"age\":30\x7d").1 "db.json" "1").2 = none ∧
      (findId
        (addItem (World.single "db.json" "") "db.json"
          "\x7b\"id\":\"1\",\"email\":\"a@b.com\",\"age\":30\x7d").1 "db.json" "1").1.out = "" := by
  refine ⟨by decide, by decide, by decide, by decide⟩

/-- C10, counterexample: the store file `[{"id":"1","email":"a@b.com","age":30}]`
followed by a line feed parses as a record array, the item
`{"id":"1","email":"x@y.com","age":5}` is valid and its id is present, and
after `add` the file holds the same array without the line feed. -/
theorem addItem_existing_rewrites_bytes :
    unmarshalDb "[\x7b\"id\":\"1\",\"email\":\"a@b.com\",\"age\":30\x7d]\n"
        = .ok (.slice [⟨"1", "a@b.com", 30⟩]) ∧
      unmarshalItem "\x7b\"id\":\"1\",\"email\":\"x@y.com\",\"age\":5\x7d" = .ok ⟨"1", "x@y.com", 5⟩ ∧
      (addItem (World.single "db.json" "[\x7b\"id\":\"1\",\"email\":\"a@b.com\",\"age\":30\x7d]\n")
          "db.json" "\x7b\"id\":\"1\",\"email\":\"x@y.com\",\"age\":5\x7d").1.files "db.json"
        = some "[\x7b\"id\":\"1\",\"email\":\"a@b.com\",\"age\":30\x7d]" ∧
      (addItem (World.single "db.json" "[\x7b\"id\":\"1\",\"email\":\"a@b.com\",\"age\":30\x7d]\n")
          "db.json" "\x7b\"id\":\"1\",\"email\":\"x@y.com\",\"age\":5\x7d").1.files "db.json"
        ≠ (World.single "db.json" "[\x7b\"id\":\"1\",\"email\":\"a@b.com\",\"age\":30\x7d]\n").files
            "db.json" := by
  refine ⟨by decide, by decide, by decide, by decide⟩

theorem write_same (fs : FS) (fn content : String) (h : fs fn = some content) :
    fs.write fn content = fs := by
  funext p
  by_cases hp : p = fn
  · simp [FS.write, hp, h]
  · simp [FS.write, hp]

/-- C10, amended: when the store file parses as a record array and the id of
the valid item is present in it, `add` returns no error, writes the message
`Item with id <id> already exists`, and leaves the file holding the
serialisation that `saveDb` writes for the parsed collection, which decodes to
that same collection; whenever the content before was such a serialisation
(of a collection whose ages fit 64 bits), the file system after the operation
is the file system before it. -/
theorem addItem_existing_saves_canonical (w : World) (fn item content : String)
    (itm : Item) (db : fileDb)
    (hitem : unmarshalItem item = .ok itm)
    (hfile : w.files fn = some content)
    (hdb : unmarshalDb content = .ok db)
    (hex : ∃ x ∈ db.records, x.Id = itm.Id) :
    (addItem w fn item).2 = none ∧
      (addItem w fn item).1.out = w.out ++ ("Item with id " ++ itm.Id ++ " already exists") ∧
      (addItem w fn item).1.files fn = some (marshalDb db) ∧
      unmarshalDb (marshalDb db) = .ok db ∧
      (∀ db0 : fileDb, (∀ x ∈ db0.records, Json.int64 x.Age) → content = marshalDb db0 →
        (addItem w fn item).1.files = w.files) := by
  have hne : item ≠ "" := by
    rintro rfl
    rw [unmarshalItem_empty] at hitem
    cases hitem
  have hload := loadDb_of_content w fn content db hfile hdb
  have hadd := add_present_eq db itm hex
  have hrun : addItem w fn item
      = ({ w with
            files := w.files.write fn (marshalDb db),
            out := w.out ++ ("Item with id " ++ itm.Id ++ " already exists") }, none) := by
    simp only [addItem, if_neg hne, hitem, hload, hadd, saveDb, World.write, msgErrItemExists]
  have hround := unmarshalDb_marshalDb db (unmarshalDb_int64 content db hdb)
  refine ⟨by rw [hrun], by rw [hrun], by rw [hrun]; simp [FS.write], hround, ?_⟩
  intro db0 hrange hcontent
  have hback := unmarshalDb_marshalDb db0 hrange
  rw [← hcontent, hdb] at hback
  have hsame : db = db0 := by injection hback
  rw [hrun]
  show w.files.write fn (marshalDb db) = w.files
  rw [hsame, ← hcontent]
  exact write_same w.files fn content hfile

theorem addItem_existing_saves_canonical_witness :
    unmarshalItem "\x7b\"id\":\"1\",\"email\":\"x@y.com\",\"age\":5\x7d" = .ok ⟨"1", "x@y.com", 5⟩ ∧
    (World.single "db.json" "[\x7b\"id\":\"1\",\"email\":\"a@b.com\",\"age\":30\x7d]\n").files "db.json"
      = some "[\x7b\"id\":\"1\",\"email\":\"a@b.com\",\"age\":30\x7d]\n" ∧
    unmarshalDb "[\x7b\"id\":\"1\",\"email\":\"a@b.com\",\"age\":30\x7d]\n"
      = .ok (.slice [⟨"1", "a@b.com", 30⟩]) ∧
    (∃ x ∈ (fileDb.slice [⟨"1", "a@b.com", 30⟩]).records, x.Id = (⟨"1", "x@y.com", 5⟩ : Item).Id) ∧
    (addItem (World.single "db.json" "[\x7b\"id\":\"1\",\"email\":\"a@b.com\",\"age\":30\x7d]\n")
        "db.json" "\x7b\"id\":\"1\",\"email\":\"x@y.com\",\"age\":5\x7d").1.files "db.json"
      = some (marshalDb (.slice [⟨"1", "a@b.com", 30⟩])) :=
  ⟨by decide, by decide, by decide, by decide,
   (addItem_existing_saves_canonical
      (World.single "db.json" "[\x7b\"id\":\"1\",\"email\":\"a@b.com\",\"age\":30\x7d]\n")
      "db.json" "\x7b\"id\":\"1\",\"email\":\"x@y.com\",\"age\":5\x7d"
      "[\x7b\"id\":\"1\",\"email\":\"a@b.com\",\"age\":30\x7d]\n"
      ⟨"1", "x@y.com", 5⟩ (.slice [⟨"1", "a@b.com", 30⟩])
      (by decide) (by decide) (by decide) (by decide)).2.2.1⟩

/-! ## More lemmas on loading -/

theorem loadDb_fst (w : World) (fn : String) :
    (loadDb w fn).1 = { w with files := w.files.openCreate fn } := by
  simp only [loadDb]
  split
  · rfl
  · split
    · split <;> rfl
    · rfl

/-- Loading an existing empty file gives the `nil` collection. -/
theorem loadDb_empty (w : World) (fn : String) (h : w.files fn = some "") :
    loadDb w fn = (w, .ok .nil) := by
  have hlen : ¬ ("".length > 0) := by decide
  simp only [loadDb, openCreate_of_some w.files fn "" h, h, if_neg hlen]

/-- Loading a missing file creates it empty and gives the `nil` collection. -/
theorem loadDb_absent (w : World) (fn : String) (h : w.files fn = none) :
    loadDb w fn = ({ w with files := w.files.write fn "" }, .ok .nil) := by
  have hopen : w.files.openCreate fn = w.files.write fn "" := by
    simp [FS.openCreate, h]
  have hread : (w.files.write fn "") fn = some "" := by simp [FS.write]
  have hlen : ¬ ("".length > 0) := by decide
  simp only [loadDb, hopen, hread, if_neg hlen]

/-- Loading an existing file whose content does not decode fails with the
error of the decoder and leaves the world as it is. -/
theorem loadDb_error (w : World) (fn content : String) (e : GoError)
    (hfile : w.files fn = some content) (hne : content ≠ "")
    (herr : unmarshalDb content = .error e) :
    loadDb w fn = (w, .error e) := by
  have hlen := length_pos_of_ne_empty content hne
  simp only [loadDb, openCreate_of_some w.files fn content hfile, hfile, herr, if_pos hlen]

/-- What `removeId` does when the loaded collection lacks the id. -/
theorem removeId_absent_run (w w1 : World) (fn id : String) (db : fileDb)
    (hid : id ≠ "") (hload : loadDb w fn = (w1, .ok db))
    (h : ∀ x ∈ db.records, x.Id ≠ id) :
    removeId w fn id
      = ({ w1 with
            files := w1.files.write fn (marshalDb db),
            out := w.out ++ msgErrIdNotFound id }, none) := by
  have hout := loadDb_out w fn
  rw [hload] at hout
  have hout2 : w1.out = w.out := hout
  simp only [removeId, if_neg hid, hload, del_absent_eq db id h, saveDb, World.write, hout2]

/-- C11, counterexample: on the empty store file, `remove` with id `9` returns
no error and writes `Item with id 9 not found`, and the file, empty before,
holds `null` afterwards. -/
theorem removeId_absent_empty_file_rewritten :
    loadDb (World.single "db.json" "") "db.json" = (World.single "db.json" "", .ok .nil) ∧
      (removeId (World.single "db.json" "") "db.json" "9").2 = none ∧
      (removeId (World.single "db.json" "") "db.json" "9").1.out = "Item with id 9 not found" ∧
      (removeId (World.single "db.json" "") "db.json" "9").1.files "db.json" = some "null" ∧
      (removeId (World.single "db.json" "") "db.json" "9").1.files "db.json"
        ≠ (World.single "db.json" "").files "db.json" := by
  refine ⟨loadDb_empty _ _ (by decide), by decide, by decide, by decide, by decide⟩

/-- C11, amended: when the store loads to a collection without the non-empty
id, `remove` returns no error, writes `Item with id <id> not found`, and leaves
the file holding the serialisation that `saveDb` writes for the loaded
collection, which decodes to that same collection. The file system after the
operation is the file system before it whenever the file held such a
serialisation (of a collection whose ages fit 64 bits); an empty file holds
`null` afterwards. -/
theorem removeId_absent_saves_canonical (w w1 : World) (fn id : String) (db : fileDb)
    (hid : id ≠ "") (hload : loadDb w fn = (w1, .ok db))
    (h : ∀ x ∈ db.records, x.Id ≠ id) :
    (removeId w fn id).2 = none ∧
      (removeId w fn id).1.out = w.out ++ ("Item with id " ++ id ++ " not found") ∧
      (removeId w fn id).1.files fn = some (marshalDb db) ∧
      unmarshalDb (marshalDb db) = .ok db ∧
      (∀ db0 : fileDb, (∀ x ∈ db0.records, Json.int64 x.Age) →
        w.files fn = some (marshalDb db0) → (removeId w fn id).1.files = w.files) ∧
      (w.files fn = some "" → (removeId w fn id).1.files fn = some "null") := by
  have hrun := removeId_absent_run w w1 fn id db hid hload h
  have hround := unmarshalDb_marshalDb db (loadDb_int64 w w1 fn db hload)
  refine ⟨by rw [hrun], by rw [hrun]; rfl, by rw [hrun]; simp [FS.write], hround, ?_, ?_⟩
  · intro db0 hrange hfile
    have hload0 := loadDb_of_content w fn (marshalDb db0) db0 hfile
      (unmarshalDb_marshalDb db0 hrange)
    rw [hload] at hload0
    injection hload0 with hw hdb
    injection hdb with hdb
    rw [hrun]
    show w1.files.write fn (marshalDb db) = w.files
    rw [hw, hdb]
    exact write_same w.files fn (marshalDb db0) hfile
  · intro hfile
    have hload0 := loadDb_empty w fn hfile
    rw [hload] at hload0
    injection hload0 with hw hdb
    injection hdb with hdb
    rw [hrun, hdb]
    simp [FS.write, marshalDb]

theorem removeId_absent_saves_canonical_witness :
    ("9" : String) ≠ "" ∧
    (∀ x ∈ (fileDb.slice [⟨"1", "a@b.com", 30⟩]).records, x.Id ≠ "9") ∧
    (removeId (World.single "db.json" "[\x7b\"id\":\"1\",\"email\":\"a@b.com\",\"age\":30\x7d]")
        "db.json" "9").1.out = "Item with id 9 not found" ∧
    (removeId (World.single "db.json" "[\x7b\"id\":\"1\",\"email\":\"a@b.com\",\"age\":30\x7d]")
        "db.json" "9").1.files
      = (World.single "db.json" "[\x7b\"id\":\"1\",\"email\":\"a@b.com\",\"age\":30\x7d]").files :=
  ⟨by decide, by decide,
   (removeId_absent_saves_canonical
      (World.single "db.json" "[\x7b\"id\":\"1\",\"email\":\"a@b.com\",\"age\":30\x7d]")
      (World.single "db.json" "[\x7b\"id\":\"1\",\"email\":\"a@b.com\",\"age\":30\x7d]")
      "db.json" "9" (.slice [⟨"1", "a@b.com", 30⟩]) (by decide)
      (loadDb_of_content
        (World.single "db.json" "[\x7b\"id\":\"1\",\"email\":\"a@b.com\",\"age\":30\x7d]")
        "db.json" "[\x7b\"id\":\"1\",\"email\":\"a@b.com\",\"age\":30\x7d]"
        (.slice [⟨"1", "a@b.com", 30⟩]) (by decide) (by decide))
      (by decide)).2.1.trans (by decide),
   (removeId_absent_saves_canonical
      (World.single "db.json" "[\x7b\"id\":\"1\",\"email\":\"a@b.com\",\"age\":30\x7d]")
      (World.single "db.json" "[\x7b\"id\":\"1\",\"email\":\"a@b.com\",\"age\":30\x7d]")
      "db.json" "9" (.slice [⟨"1", "a@b.com", 30⟩]) (by decide)
      (loadDb_of_content
        (World.single "db.json" "[\x7b\"id\":\"1\",\"email\":\"a@b.com\",\"age\":30\x7d]")
        "db.json" "[\x7b\"id\":\"1\",\"email\":\"a@b.com\",\"age\":30\x7d]"
        (.slice [⟨"1", "a@b.com", 30⟩]) (by decide) (by decide))
      (by decide)).2.2.2.2.1 (.slice [⟨"1", "a@b.com", 30⟩]) (by decide) (by decide)⟩

/-! ## Theorems: `Perform` -/

theorem isValidOperation_iff (op : String) :
    isValidOperation op = true ↔
      (op = "add" ∨ op = "list" ∨ op = "remove" ∨ op = "findById") := by
  simp only [isValidOperation, Bool.or_eq_true, decide_eq_true_eq]
  tauto

/-- The three common checks of `Perform` pass when the operation is present
and not empty and the file name is not empty. -/
theorem Perform_checks_pass (args : Arguments) (op : String)
    (hop : args "operation" = some op) (hne : op ≠ "") :
    args.get "operation" = op ∧
      ¬ (args.get "operation" = "" ∨ (args "operation").isNone = true) := by
  have hget : args.get "operation" = op := by simp [Arguments.get, hop]
  refine ⟨hget, ?_⟩
  rw [hget]
  simp [hop, hne]

theorem Perform_list (w : World) (args : Arguments) (content : String)
    (hop : args "operation" = some "list") (hfn : args.get "fileName" ≠ "")
    (hfile : w.files (args.get "fileName") = some content) :
    Perform w args = (w.write content, none) := by
  obtain ⟨hget, h1⟩ := Perform_checks_pass args "list" hop (by decide)
  have hv : isValidOperation "list" = true := by decide
  simp only [Perform, if_neg h1, if_neg hfn]
  simp only [hget, hv, Bool.not_true, Bool.false_eq_true, if_false, if_true, hfile]

theorem Perform_add (w : World) (args : Arguments)
    (hop : args "operation" = some "add") (hfn : args.get "fileName" ≠ "") :
    Perform w args = addItem w (args.get "fileName") (args.get "item") := by
  obtain ⟨hget, h1⟩ := Perform_checks_pass args "add" hop (by decide)
  have hv : isValidOperation "add" = true := by decide
  have hl : ¬ ("add" = "list") := by decide
  simp only [Perform, if_neg h1, if_neg hfn]
  simp only [hget, hv, Bool.not_true, Bool.false_eq_true, if_false, if_true, if_neg hl]

theorem Perform_remove (w : World) (args : Arguments)
    (hop : args "operation" = some "remove") (hfn : args.get "fileName" ≠ "") :
    Perform w args = removeId w (args.get "fileName") (args.get "id") := by
  obtain ⟨hget, h1⟩ := Perform_checks_pass args "remove" hop (by decide)
  have hv : isValidOperation "remove" = true := by decide
  have hl : ¬ ("remove" = "list") := by decide
  have ha : ¬ ("remove" = "add") := by decide
  simp only [Perform, if_neg h1, if_neg hfn]
  simp only [hget, hv, Bool.not_true, Bool.false_eq_true, if_false, if_true, if_neg hl, if_neg ha]

theorem Perform_findById (w : World) (args : Arguments)
    (hop : args "operation" = some "findById") (hfn : args.get "fileName" ≠ "") :
    Perform w args = findId w (args.get "fileName") (args.get "id") := by
  obtain ⟨hget, h1⟩ := Perform_checks_pass args "findById" hop (by decide)
  have hv : isValidOperation "findById" = true := by decide
  have hl : ¬ ("findById" = "list") := by decide
  have ha : ¬ ("findById" = "add") := by decide
  have hr : ¬ ("findById" = "remove") := by decide
  simp only [Perform, if_neg h1, if_neg hfn]
  simp only [hget, hv, Bool.not_true, Bool.false_eq_true, if_false, if_true, if_neg hl, if_neg ha,
    if_neg hr]

theorem Perform_no_operation (w : World) (args : Arguments)
    (h : args.get "operation" = "" ∨ args "operation" = none) :
    Perform w args = (w, some errOper) := by
  have h1 : args.get "operation" = "" ∨ (args "operation").isNone = true := by
    rcases h with h | h
    · exact Or.inl h
    · exact Or.inr (by simp [h])
  simp only [Perform, if_pos h1]

theorem Perform_operation_given (args : Arguments)
    (h : ¬ (args.get "operation" = "" ∨ args "operation" = none)) :
    ¬ (args.get "operation" = "" ∨ (args "operation").isNone = true) := by
  rintro (h1 | h1)
  · exact h (Or.inl h1)
  · exact h (Or.inr (Option.isNone_iff_eq_none.mp h1))

theorem Perform_no_fileName (w : World) (args : Arguments)
    (h : ¬ (args.get "operation" = "" ∨ args "operation" = none))
    (hfn : args.get "fileName" = "") :
    Perform w args = (w, some errFileName) := by
  simp only [Perform, if_neg (Perform_operation_given args h), if_pos hfn]

theorem Perform_not_allowed (w : World) (args : Arguments)
    (h : ¬ (args.get "operation" = "" ∨ args "operation" = none))
    (hfn : args.get "fileName" ≠ "")
    (hop : ¬ (args.get "operation" = "add" ∨ args.get "operation" = "list" ∨
        args.get "operation" = "remove" ∨ args.get "operation" = "findById")) :
    Perform w args = (w, some (.text (msgErrOperNotFound (args.get "operation")))) := by
  have hinv : isValidOperation (args.get "operation") = false := by
    cases hv : isValidOperation (args.get "operation")
    · rfl
    · exact absurd ((isValidOperation_iff _).mp hv) hop
  simp only [Perform, if_neg (Perform_operation_given args h), if_neg hfn, hinv, Bool.not_false,
    if_true]

/-- C12: `Perform` checks its arguments in a fixed order and the first failing
check decides: an empty or absent operation gives the missing-operation
error whatever the other arguments are; otherwise an empty file name gives
the missing-fileName error, also for an operation that is not valid;
otherwise an operation that is none of `add`, `list`, `remove`, `findById`
gives the error `Operation <value> not allowed!`. An operation is valid
exactly when it is one of these four strings, with this spelling. In all
three cases nothing else happens. -/
theorem Perform_validation_order (w : World) (args : Arguments) :
    ((args.get "operation" = "" ∨ args "operation" = none) →
        Perform w args = (w, some errOper)) ∧
      (¬ (args.get "operation" = "" ∨ args "operation" = none) →
        args.get "fileName" = "" → Perform w args = (w, some errFileName)) ∧
      (¬ (args.get "operation" = "" ∨ args "operation" = none) →
        args.get "fileName" ≠ "" →
        ¬ (args.get "operation" = "add" ∨ args.get "operation" = "list" ∨
            args.get "operation" = "remove" ∨ args.get "operation" = "findById") →
        Perform w args
          = (w, some (.text ("Operation " ++ args.get "operation" ++ " not allowed!")))) ∧
      (∀ op : String, isValidOperation op = true ↔
        (op = "add" ∨ op = "list" ∨ op = "remove" ∨ op = "findById")) ∧
      isValidOperation "Add" = false ∧ isValidOperation "LIST" = false := by
  exact ⟨Perform_no_operation w args, Perform_no_fileName w args,
    Perform_not_allowed w args, isValidOperation_iff, by decide, by decide⟩

theorem Perform_validation_order_witness :
    Perform (World.single "x" "") (Arguments.ofList [("fileName", "x"), ("item", "i"), ("id", "1")])
      = (World.single "x" "", some errOper) ∧
    Perform (World.single "x" "") (Arguments.ofList [("operation", "bogus"), ("fileName", "")])
      = (World.single "x" "", some errFileName) ∧
    Perform (World.single "x" "") (Arguments.ofList [("operation", "bogus"), ("fileName", "x")])
      = (World.single "x" "", some (.text "Operation bogus not allowed!")) :=
  ⟨(Perform_validation_order (World.single "x" "")
      (Arguments.ofList [("fileName", "x"), ("item", "i"), ("id", "1")])).1 (by decide),
   (Perform_validation_order (World.single "x" "")
      (Arguments.ofList [("operation", "bogus"), ("fileName", "")])).2.1 (by decide) (by decide),
   ((Perform_validation_order (World.single "x" "")
      (Arguments.ofList [("operation", "bogus"), ("fileName", "x")])).2.2.1
        (by decide) (by decide) (by decide)).trans (by
          show (World.single "x" "", some (GoError.text _)) = _
          rfl)⟩

/-- C13: with a valid operation and a non-empty file name, `add` with an empty
item fails with the missing-item error and `remove` or `findById` with an
empty id fails with the missing-id error. The world after the call is the
world before it, whatever it is: nothing is written to the output, no file is
created or modified, and the outcome does not depend on any file. -/
theorem Perform_missing_item_or_id (w : World) (args : Arguments)
    (hfn : args.get "fileName" ≠ "") :
    (args "operation" = some "add" → args.get "item" = "" →
        Perform w args = (w, some errItem)) ∧
      (args "operation" = some "remove" → args.get "id" = "" →
        Perform w args = (w, some errId)) ∧
      (args "operation" = some "findById" → args.get "id" = "" →
        Perform w args = (w, some errId)) := by
  refine ⟨?_, ?_, ?_⟩
  · intro hop hitem
    rw [Perform_add w args hop hfn]
    simp only [addItem, if_pos hitem]
  · intro hop hid
    rw [Perform_remove w args hop hfn]
    simp only [removeId, if_pos hid]
  · intro hop hid
    rw [Perform_findById w args hop hfn]
    simp only [findId, if_pos hid]

theorem Perform_missing_item_or_id_witness :
    Perform (World.single "other.json" "[]")
        (Arguments.ofList [("operation", "add"), ("fileName", "db.json"), ("id", "1")])
      = (World.single "other.json" "[]", some errItem) ∧
    Perform (World.single "other.json" "[]")
        (Arguments.ofList [("operation", "remove"), ("fileName", "db.json"), ("id", "")])
      = (World.single "other.json" "[]", some errId) ∧
    Perform (World.single "other.json" "[]")
        (Arguments.ofList [("operation", "findById"), ("fileName", "db.json")])
      = (World.single "other.json" "[]", some errId) :=
  ⟨(Perform_missing_item_or_id (World.single "other.json" "[]")
      (Arguments.ofList [("operation", "add"), ("fileName", "db.json"), ("id", "1")])
      (by decide)).1 (by decide) (by decide),
   (Perform_missing_item_or_id (World.single "other.json" "[]")
      (Arguments.ofList [("operation", "remove"), ("fileName", "db.json"), ("id", "")])
      (by decide)).2.1 (by decide) (by decide),
   (Perform_missing_item_or_id (World.single "other.json" "[]")
      (Arguments.ofList [("operation", "findById"), ("fileName", "db.json")])
      (by decide)).2.2 (by decide) (by decide)⟩

/-- C14, counterexample: for an absent operation the error of `Perform` is
`-operation flag has to be specified`, with the leading dash of the flag, and
for the operation `list` with an empty file name it is `-fileName flag has to
be specified`; neither is the text without the dash. -/
theorem Perform_messages_have_dash :
    (Perform (World.single "x" "") (Arguments.ofList [("fileName", "x")])).2
        = some (.text "-operation flag has to be specified") ∧
      (Perform (World.single "x" "") (Arguments.ofList [("fileName", "x")])).2
        ≠ some (.text "operation flag has to be specified") ∧
      (Perform (World.single "x" "")
          (Arguments.ofList [("operation", "list"), ("fileName", "")])).2
        = some (.text "-fileName flag has to be specified") ∧
      (Perform (World.single "x" "")
          (Arguments.ofList [("operation", "list"), ("fileName", "")])).2
        ≠ some (.text "fileName flag has to be specified") := by
  refine ⟨by decide, by decide, by decide, by decide⟩

/-- C14, amended: the message of the error that `Perform` returns for an empty
or absent operation is exactly `-operation flag has to be specified`, and the
message of the error for a given operation with an empty file name is exactly
`-fileName flag has to be specified`. -/
theorem Perform_missing_flag_messages (w : World) (args : Arguments) :
    ((args.get "operation" = "" ∨ args "operation" = none) →
        (Perform w args).2 = some (.text "-operation flag has to be specified")) ∧
      (¬ (args.get "operation" = "" ∨ args "operation" = none) →
        args.get "fileName" = "" →
        (Perform w args).2 = some (.text "-fileName flag has to be specified")) := by
  constructor
  · intro h
    rw [Perform_no_operation w args h]
    rfl
  · intro h hfn
    rw [Perform_no_fileName w args h hfn]
    rfl

theorem Perform_missing_flag_messages_witness :
    (Perform (World.single "x" "") (Arguments.ofList [("operation", ""), ("fileName", "x")])).2
        = some (.text "-operation flag has to be specified") ∧
    (Perform (World.single "x" "") (Arguments.ofList [("operation", "add"), ("item", "i")])).2
        = some (.text "-fileName flag has to be specified") :=
  ⟨(Perform_missing_flag_messages (World.single "x" "")
      (Arguments.ofList [("operation", ""), ("fileName", "x")])).1 (by decide),
   (Perform_missing_flag_messages (World.single "x" "")
      (Arguments.ofList [("operation", "add"), ("item", "i")])).2 (by decide) (by decide)⟩

/-- C15: for an existing file of any content, valid JSON or not, `list`
returns no error, appends exactly the content of the file to the output, and
leaves every file as it is; for an empty file the output stays as it was. -/
theorem Perform_list_raw (w : World) (args : Arguments) (content : String)
    (hop : args "operation" = some "list") (hfn : args.get "fileName" ≠ "")
    (hfile : w.files (args.get "fileName") = some content) :
    (Perform w args).2 = none ∧ (Perform w args).1.out = w.out ++ content ∧
      (Perform w args).1.files = w.files ∧ (Perform w args).1.printed = w.printed ∧
      (content = "" → (Perform w args).1.out = w.out) := by
  rw [Perform_list w args content hop hfn hfile]
  refine ⟨rfl, rfl, rfl, rfl, ?_⟩
  intro hc
  simp [World.write, hc]

theorem Perform_list_raw_witness :
    (Perform (World.single "db.json" "not json \x7b[")
        (Arguments.ofList [("operation", "list"), ("fileName", "db.json")])).1.out
      = "not json \x7b[" ∧
    (Perform (World.single "db.json" "")
        (Arguments.ofList [("operation", "list"), ("fileName", "db.json")])).1.out = "" :=
  ⟨(Perform_list_raw (World.single "db.json" "not json \x7b[")
      (Arguments.ofList [("operation", "list"), ("fileName", "db.json")]) "not json \x7b["
      (by decide) (by decide) (by decide)).2.1.trans (by decide),
   (Perform_list_raw (World.single "db.json" "")
      (Arguments.ofList [("operation", "list"), ("fileName", "db.json")]) ""
      (by decide) (by decide) (by decide)).2.2.2.2 rfl⟩

/-- C16, counterexample: the content `null` is not empty and is not a JSON
array, yet the decoder accepts it as the `nil` collection. On the store file
holding `null`, `add` of a valid item returns no error and rewrites the file,
`remove` returns no error and writes `Item with id 1 not found` to the output,
and `findById` returns no error. -/
theorem load_null_content_accepted :
    ("null" : String) ≠ "" ∧
      Json.parse "null".data = some Json.Value.null ∧
      unmarshalDb "null" = .ok .nil ∧
      (addItem (World.single "db.json" "null") "db.json"
          "\x7b\"id\":\"1\",\"email\":\"a@b.com\",\"age\":30\x7d").2 = none ∧
      (addItem (World.single "db.json" "null") "db.json"
          "\x7b\"id\":\"1\",\"email\":\"a@b.com\",\"age\":30\x7d").1.files "db.json"
        = some "[\x7b\"id\":\"1\",\"email\":\"a@b.com\",\"age\":30\x7d]" ∧
      (addItem (World.single "db.json" "null") "db.json"
          "\x7b\"id\":\"1\",\"email\":\"a@b.com\",\"age\":30\x7d").1.files "db.json"
        ≠ (World.single "db.json" "null").files "db.json" ∧
      (removeId (World.single "db.json" "null") "db.json" "1").2 = none ∧
      (removeId (World.single "db.json" "null") "db.json" "1").1.out
        = "Item with id 1 not found" ∧
      (findId (World.single "db.json" "null") "db.json" "1").2 = none := by
  refine ⟨by decide, rfl, by decide, by decide, by decide, by decide, by decide, by decide,
    by decide⟩

/-- C16, amended: when the store file is not empty and the decoder rejects its
content, `add` (of a valid item), `remove` and `findById` (of a non-empty id)
each return the error of the decoder and leave the world as it is: nothing is
written to the output and no file changes, so no save took place. Loading an
empty file gives the empty collection and no error, and so does loading a
file that holds `null`, which the decoder does not reject. -/
theorem load_failure_aborts (w : World) (fn content : String) (e : GoError)
    (hfile : w.files fn = some content) (hne : content ≠ "")
    (herr : unmarshalDb content = .error e) :
    (∀ item itm, unmarshalItem item = .ok itm → addItem w fn item = (w, some e)) ∧
      (∀ id, id ≠ "" → removeId w fn id = (w, some e)) ∧
      (∀ id, id ≠ "" → findId w fn id = (w, some e)) ∧
      (∀ w0 : World, w0.files fn = some "" →
        loadDb w0 fn = (w0, .ok .nil) ∧ fileDb.nil.records = []) ∧
      (∀ w0 : World, w0.files fn = some "null" → loadDb w0 fn = (w0, .ok .nil)) := by
  have hload := loadDb_error w fn content e hfile hne herr
  refine ⟨?_, ?_, ?_, ?_, ?_⟩
  · intro item itm hitem
    have hitemne : item ≠ "" := by
      rintro rfl
      rw [unmarshalItem_empty] at hitem
      cases hitem
    simp only [addItem, if_neg hitemne, hitem, hload]
  · intro id hid
    simp only [removeId, if_neg hid, hload]
  · intro id hid
    simp only [findId, if_neg hid, hload]
  · intro w0 h0
    exact ⟨loadDb_empty w0 fn h0, rfl⟩
  · intro w0 h0
    exact loadDb_of_content w0 fn "null" .nil h0 (by decide)

theorem load_failure_aborts_witness :
    (World.single "db.json" "[\x7b\"id\":1\x7d").files "db.json" = some "[\x7b\"id\":1\x7d" ∧
    ("[\x7b\"id\":1\x7d" : String) ≠ "" ∧
    unmarshalDb "[\x7b\"id\":1\x7d" = .error .syntaxError ∧
    addItem (World.single "db.json" "[\x7b\"id\":1\x7d") "db.json"
        "\x7b\"id\":\"1\",\"email\":\"a@b.com\",\"age\":30\x7d"
      = (World.single "db.json" "[\x7b\"id\":1\x7d", some .syntaxError) ∧
    removeId (World.single "db.json" "[\x7b\"id\":1\x7d") "db.json" "1"
      = (World.single "db.json" "[\x7b\"id\":1\x7d", some .syntaxError) ∧
    findId (World.single "db.json" "[\x7b\"id\":1\x7d") "db.json" "1"
      = (World.single "db.json" "[\x7b\"id\":1\x7d", some .syntaxError) :=
  ⟨by decide, by decide, by decide,
   (load_failure_aborts (World.single "db.json" "[\x7b\"id\":1\x7d") "db.json"
      "[\x7b\"id\":1\x7d" .syntaxError (by decide) (by decide) (by decide)).1
      "\x7b\"id\":\"1\",\"email\":\"a@b.com\",\"age\":30\x7d" ⟨"1", "a@b.com", 30⟩ (by decide),
   (load_failure_aborts (World.single "db.json" "[\x7b\"id\":1\x7d") "db.json"
      "[\x7b\"id\":1\x7d" .syntaxError (by decide) (by decide) (by decide)).2.1 "1" (by decide),
   (load_failure_aborts (World.single "db.json" "[\x7b\"id\":1\x7d") "db.json"
      "[\x7b\"id\":1\x7d" .syntaxError (by decide) (by decide) (by decide)).2.2.1 "1"
      (by decide)⟩

/-- The serialisation of a collection of one record. -/
theorem marshalDb_single (itm : Item) :
    marshalDb (.slice [itm]) = "[" ++ marshalItem itm ++ "]" := by
  simp only [marshalDb, marshalItem, Json.encodeItems]
  rfl

/-- C17: on an empty store file, `add` of a valid item returns no error, writes
nothing to the output, and leaves the file holding the JSON array of exactly
the decoded record: an opening bracket, the serialisation of the record, a
closing bracket, which decodes to the collection of that one record. -/
theorem addItem_empty_file (w : World) (fn item : String) (itm : Item)
    (hfile : w.files fn = some "") (hitem : unmarshalItem item = .ok itm) :
    (addItem w fn item).2 = none ∧ (addItem w fn item).1.out = w.out ∧
      (addItem w fn item).1.files fn = some ("[" ++ marshalItem itm ++ "]") ∧
      unmarshalDb ("[" ++ marshalItem itm ++ "]") = .ok (.slice [itm]) ∧
      (∀ p, p ≠ fn → (addItem w fn item).1.files p = w.files p) := by
  have hne : item ≠ "" := by
    rintro rfl
    rw [unmarshalItem_empty] at hitem
    cases hitem
  have hload := loadDb_empty w fn hfile
  have hadd : fileDb.nil.add itm = (.slice [itm], "", none) :=
    add_absent .nil itm (by simp [fileDb.records])
  have hrun : addItem w fn item
      = ({ w with files := w.files.write fn (marshalDb (.slice [itm])) }, none) := by
    simp only [addItem, if_neg hne, hitem, hload, hadd, saveDb, World.write,
      String.append_empty]
  have hround := unmarshalDb_marshalDb (.slice [itm]) (by
    intro x hx
    rw [List.mem_singleton.mp hx]
    exact unmarshalItem_int64 item itm hitem)
  rw [marshalDb_single] at hround hrun
  refine ⟨by rw [hrun], by rw [hrun], by rw [hrun]; simp [FS.write], hround, ?_⟩
  intro p hp
  rw [hrun]
  simp [FS.write, hp]

theorem addItem_empty_file_witness :
    (World.single "db.json" "").files "db.json" = some "" ∧
    unmarshalItem "\x7b\"id\":\"1\",\"email\":\"a@b.com\",\"age\":30\x7d"
      = .ok ⟨"1", "a@b.com", 30⟩ ∧
    (addItem (World.single "db.json" "") "db.json"
        "\x7b\"id\":\"1\",\"email\":\"a@b.com\",\"age\":30\x7d").1.out = "" ∧
    (addItem (World.single "db.json" "") "db.json"
        "\x7b\"id\":\"1\",\"email\":\"a@b.com\",\"age\":30\x7d").1.files "db.json"
      = some "[\x7b\"id\":\"1\",\"email\":\"a@b.com\",\"age\":30\x7d]" :=
  ⟨by decide, by decide,
   (addItem_empty_file (World.single "db.json" "") "db.json"
      "\x7b\"id\":\"1\",\"email\":\"a@b.com\",\"age\":30\x7d" ⟨"1", "a@b.com", 30⟩
      (by decide) (by decide)).2.1,
   (addItem_empty_file (World.single "db.json" "") "db.json"
      "\x7b\"id\":\"1\",\"email\":\"a@b.com\",\"age\":30\x7d" ⟨"1", "a@b.com", 30⟩
      (by decide) (by decide)).2.2.1.trans (by decide)⟩

/-! ## Theorems: the lookup -/

theorem getElem?_split_self (pre : List Item) (x : Item) (post : List Item) :
    (pre ++ x :: post)[pre.length]? = some x := by
  rw [List.getElem?_append_right (Nat.le_refl _), Nat.sub_self]
  exact List.getElem?_cons_zero

theorem getElem?_split_before (pre : List Item) (x : Item) (post : List Item) (j : Nat)
    (hj : j < pre.length) (y : Item) (hy : (pre ++ x :: post)[j]? = some y) : y ∈ pre := by
  rw [List.getElem?_append_left hj] at hy
  exact List.getElem?_mem hy

/-- C18: `findById` returns the zero `Item` and `-1` exactly when no record has
the id; otherwise it returns the record at the least index whose record has
the id, together with that index, which is at least 0 and less than the
length, so that `db[:i]` and `db[i+1:]` in `del` are within bounds. -/
theorem findById_spec (db : fileDb) (id : String) :
    (db.findById id = (Item.zero, -1) ↔ ∀ x ∈ db.records, x.Id ≠ id) ∧
      ((db.findById id).2 = -1 ↔ ∀ x ∈ db.records, x.Id ≠ id) ∧
      ((db.findById id).2 ≠ -1 →
        ∃ i : Nat, (db.findById id).2 = (i : Int) ∧ i < db.records.length ∧
          db.records[i]? = some (db.findById id).1 ∧ (db.findById id).1.Id = id ∧
          (∀ j, j < i → ∀ y, db.records[j]? = some y → y.Id ≠ id) ∧
          i ≤ db.records.length ∧ i + 1 ≤ db.records.length) := by
  by_cases hex : ∃ x ∈ db.records, x.Id = id
  · obtain ⟨pre, x, post, hsplit, hx, hpre⟩ := exists_first_split id db.records hex
    have hf := findById_split db id pre x post hsplit hpre hx
    have hnot : ¬ ∀ x ∈ db.records, x.Id ≠ id := by
      intro hall
      obtain ⟨y, hy, hyid⟩ := hex
      exact hall y hy hyid
    have hlen : pre.length < db.records.length := by
      rw [hsplit, List.length_append, List.length_cons]
      omega
    refine ⟨?_, ?_, ?_⟩
    · constructor
      · intro h
        rw [hf] at h
        have h2 := congrArg Prod.snd h
        simp only at h2
        omega
      · intro h
        exact absurd h hnot
    · constructor
      · intro h
        rw [hf] at h
        simp only at h
        omega
      · intro h
        exact absurd h hnot
    · intro _
      refine ⟨pre.length, by rw [hf], hlen, ?_, by rw [hf]; exact hx, ?_, by omega, by omega⟩
      · rw [hf, hsplit]
        exact getElem?_split_self pre x post
      · intro j hj y hy
        rw [hsplit] at hy
        exact hpre y (getElem?_split_before pre x post j hj y hy)
  · have hab : ∀ x ∈ db.records, x.Id ≠ id := fun x hx hid => hex ⟨x, hx, hid⟩
    have hf := findById_absent db id hab
    refine ⟨⟨fun _ => hab, fun _ => hf⟩, ⟨fun _ => hab, fun _ => by rw [hf]⟩, ?_⟩
    intro h
    rw [hf] at h
    exact absurd rfl h

theorem findById_spec_witness :
    (fileDb.slice [⟨"1", "a", 1⟩, ⟨"2", "b", 2⟩, ⟨"2", "c", 3⟩]).findById "2"
      = (⟨"2", "b", 2⟩, 1) ∧
    (∃ i : Nat,
      ((fileDb.slice [⟨"1", "a", 1⟩, ⟨"2", "b", 2⟩, ⟨"2", "c", 3⟩]).findById "2").2 = (i : Int) ∧
      i < (fileDb.slice [⟨"1", "a", 1⟩, ⟨"2", "b", 2⟩, ⟨"2", "c", 3⟩]).records.length) ∧
    (fileDb.slice [⟨"1", "a", 1⟩, ⟨"2", "b", 2⟩, ⟨"2", "c", 3⟩]).findById "7"
      = (Item.zero, -1) :=
  ⟨by decide,
   (fun ⟨i, h1, h2, _⟩ => ⟨i, h1, h2⟩)
     ((findById_spec (fileDb.slice [⟨"1", "a", 1⟩, ⟨"2", "b", 2⟩, ⟨"2", "c", 3⟩]) "2").2.2
        (by decide)),
   (findById_spec (fileDb.slice [⟨"1", "a", 1⟩, ⟨"2", "b", 2⟩, ⟨"2", "c", 3⟩]) "7").1.mpr
      (by decide)⟩

theorem findByIdFrom_fst (id : String) (xs : List Item) (i j : Nat) :
    (findByIdFrom id xs i).1 = (findByIdFrom id xs j).1 := by
  induction xs generalizing i j with
  | nil => rfl
  | cons x xs ih =>
    by_cases hx : x.Id = id
    · simp only [findByIdFrom, if_pos hx]
    · simp only [findByIdFrom, if_neg hx]
      exact ih (i + 1) (j + 1)

/-- Erasing a record with another id does not change the record that the
scan returns. -/
theorem findByIdFrom_erase_other (id : String) (pre : List Item) (x : Item)
    (post : List Item) (i j : Nat) (hx : x.Id ≠ id) :
    (findByIdFrom id (pre ++ post) i).1 = (findByIdFrom id (pre ++ x :: post) j).1 := by
  induction pre generalizing i j with
  | nil =>
    show (findByIdFrom id post i).1 = (findByIdFrom id (x :: post) j).1
    simp only [findByIdFrom, if_neg hx]
    exact findByIdFrom_fst id post i (j + 1)
  | cons p ps ih =>
    show (findByIdFrom id (p :: (ps ++ post)) i).1 = (findByIdFrom id (p :: (ps ++ x :: post)) j).1
    by_cases hp : p.Id = id
    · simp only [findByIdFrom, if_pos hp]
    · simp only [findByIdFrom, if_neg hp]
      exact ih (i + 1) (j + 1)

/-- C19: in a collection without a repeated id, after `del` of an id that is
present `findById` reports `-1` for that id, and for every other id it
returns the record it returned before the removal. Some collection with a
repeated id still has the id after `del`. -/
theorem del_then_findById (c : fileDb) (id : String) (huniq : uniqueIds c)
    (hex : ∃ x ∈ c.records, x.Id = id) :
    ((c.del id).1.findById id).2 = -1 ∧
      (∀ other : String, other ≠ id →
        ((c.del id).1.findById other).1 = (c.findById other).1) ∧
      (∃ (c0 : fileDb) (id0 : String), (∃ x ∈ c0.records, x.Id = id0) ∧
        ((c0.del id0).1.findById id0).2 ≠ -1) := by
  obtain ⟨pre, x, post, hsplit, hx, hpre⟩ := exists_first_split id c.records hex
  have hdel := del_split c id pre x post hsplit hpre hx
  have hpost : ∀ y ∈ post, y.Id ≠ id := by
    intro y hy hyid
    unfold uniqueIds at huniq
    rw [hsplit, List.map_append, List.map_cons] at huniq
    have hnd := (List.nodup_append.mp huniq).2.1
    have hnot := (List.nodup_cons.mp hnd).1
    apply hnot
    rw [hx, ← hyid]
    exact List.mem_map_of_mem Item.Id hy
  refine ⟨?_, ?_, ?_⟩
  · rw [hdel]
    have hab : ∀ y ∈ (fileDb.slice (pre ++ post)).records, y.Id ≠ id := by
      intro y hy
      rcases List.mem_append.mp hy with hy | hy
      · exact hpre y hy
      · exact hpost y hy
    rw [findById_absent _ id hab]
  · intro other hother
    rw [hdel]
    unfold fileDb.findById
    rw [hsplit]
    exact findByIdFrom_erase_other other pre x post 0 0 (by rw [hx]; exact fun h => hother h.symm)
  · exact ⟨.slice [⟨"2", "b", 2⟩, ⟨"2", "c", 3⟩], "2", by decide, by decide⟩

theorem del_then_findById_witness :
    uniqueIds (fileDb.slice [⟨"1", "a", 1⟩, ⟨"2", "b", 2⟩, ⟨"3", "c", 3⟩]) ∧
    (∃ x ∈ (fileDb.slice [⟨"1", "a", 1⟩, ⟨"2", "b", 2⟩, ⟨"3", "c", 3⟩]).records, x.Id = "2") ∧
    (((fileDb.slice [⟨"1", "a", 1⟩, ⟨"2", "b", 2⟩, ⟨"3", "c", 3⟩]).del "2").1.findById "2").2
      = -1 ∧
    (((fileDb.slice [⟨"1", "a", 1⟩, ⟨"2", "b", 2⟩, ⟨"3", "c", 3⟩]).del "2").1.findById "3").1
      = ⟨"3", "c", 3⟩ :=
  ⟨by decide, by decide,
   (del_then_findById (fileDb.slice [⟨"1", "a", 1⟩, ⟨"2", "b", 2⟩, ⟨"3", "c", 3⟩]) "2"
      (by decide) (by decide)).1,
   ((del_then_findById (fileDb.slice [⟨"1", "a", 1⟩, ⟨"2", "b", 2⟩, ⟨"3", "c", 3⟩]) "2"
      (by decide) (by decide)).2.1 "3" (by decide)).trans (by decide)⟩

/-- The files after `findId`: those before it, with the store file created
empty when the id is given and the file was missing. -/
theorem findId_files (w : World) (fn id : String) :
    (findId w fn id).1.files = if id = "" then w.files else w.files.openCreate fn := by
  by_cases hid : id = ""
  · simp only [findId, if_pos hid]
  · have hfst := loadDb_fst w fn
    simp only [findId, if_neg hid]
    rcases hl : loadDb w fn with ⟨w1, r⟩
    rw [hl] at hfst
    have hw1 : w1.files = w.files.openCreate fn := by
      have : w1 = { w with files := w.files.openCreate fn } := hfst
      rw [this]
    cases r with
    | error e => exact hw1
    | ok db => exact hw1

/-- C20: `findById` is read-only on an existing store file: for every id,
found or not, and every content, decodable or not, the file system after
the operation is the file system before it. On a missing store file the only
effect on the files is that the store file may exist afterwards, empty; no
other file changes. -/
theorem findId_read_only (w : World) (fn id : String) :
    (∀ content, w.files fn = some content → (findId w fn id).1.files = w.files) ∧
      (w.files fn = none →
        (findId w fn id).1.files = w.files ∨ (findId w fn id).1.files = w.files.write fn "") ∧
      (∀ p, p ≠ fn → (findId w fn id).1.files p = w.files p) := by
  rw [findId_files]
  refine ⟨?_, ?_, ?_⟩
  · intro content hfile
    split
    · rfl
    · exact openCreate_of_some w.files fn content hfile
  · intro hnone
    split
    · exact Or.inl rfl
    · right
      simp [FS.openCreate, hnone]
  · intro p hp
    split
    · rfl
    · cases hfile : w.files fn with
      | some content => rw [openCreate_of_some w.files fn content hfile]
      | none => simp [FS.openCreate, hfile, FS.write, hp]

theorem findId_read_only_witness :
    (findId (World.single "db.json" "[\x7b\"id\":1\x7d") "db.json" "1").1.files
      = (World.single "db.json" "[\x7b\"id\":1\x7d").files ∧
    (findId (World.single "db.json" "[\x7b\"id\":\"1\",\"email\":\"a@b.com\",\"age\":30\x7d]")
        "db.json" "1").1.files "db.json"
      = some "[\x7b\"id\":\"1\",\"email\":\"a@b.com\",\"age\":30\x7d]" ∧
    (findId (World.single "other.json" "[]") "db.json" "1").1.files "db.json" = some "" :=
  ⟨(findId_read_only (World.single "db.json" "[\x7b\"id\":1\x7d") "db.json" "1").1
      "[\x7b\"id\":1\x7d" (by decide),
   (congrFun ((findId_read_only
      (World.single "db.json" "[\x7b\"id\":\"1\",\"email\":\"a@b.com\",\"age\":30\x7d]")
      "db.json" "1").1 "[\x7b\"id\":\"1\",\"email\":\"a@b.com\",\"age\":30\x7d]" (by decide))
      "db.json").trans (by decide),
   by decide⟩

end RecordStore
